import Mathlib

/-!
# DisplayRaw: pixel decoding, format table and raster walk

Shallow embedding of `src/displayraw.c`.

Modelling conventions
* `uint8_t` is `Fin 256`; a `uint8_t` that is promoted to `int` is its `.val`.
* `pixel_format` is the numeric value of the C enumeration, so identifiers
  outside the seventeen enumerators can be passed as well.
* A buffer pointer is the list of bytes that are readable from it; `data + k`
  is `data.drop k`. A read past the end of the list has no defined behaviour
  and makes the function return `none`.
* `float` arithmetic is idealised: a finite value is an exact rational and
  no rounding is applied. Bytes reinterpreted as `float` (RGBA32F) are decoded
  as little-endian IEEE-754 binary32, which also has infinities and NaN.
* `int` is 32 bits wide, `size_t` is 64 bits wide and `sizeof(float)` is 4.
  Signed `int` overflow has no defined behaviour and yields `none`.
* A C string is the list of its characters before the terminating NUL. A
  width or height stored from an `atoi` call whose value is not an `int` is
  `none`.
* The content of a block returned by `malloc` is indeterminate and is a
  parameter; the content of the input file is a parameter as well.
-/

namespace DisplayRaw

/-! ## Machine integers -/

/-- Byte of the source buffer (`uint8_t`). -/
abbrev uint8_t := Fin 256

/-- Largest value of a C `int`. -/
def INT_MAX : Int := 2147483647

/-- Smallest value of a C `int`. -/
def INT_MIN : Int := -2147483648

/-- Conversion of an integer value to `uint8_t` (reduction modulo 256). -/
def to_uint8 (n : Nat) : Nat := n % 256

/-- Product of two `int` values; `none` when the result is not representable. -/
def int_mul (a b : Int) : Option Int :=
  if INT_MIN ≤ a * b ∧ a * b ≤ INT_MAX then some (a * b) else none

/-- Conversion of an `int` to `size_t` (reduction modulo 2^64). -/
def int_to_size_t (x : Int) : Nat := (x % 18446744073709551616).toNat

/-- Conversion of a `size_t` to `int` (wraps into the 32-bit signed range). -/
def size_t_to_int (n : Nat) : Int :=
  if n % 4294967296 < 2147483648 then (n % 4294967296 : Nat)
  else ((n % 4294967296 : Nat) : Int) - 4294967296

/-- Size in bytes of a C `float`. -/
def sizeof_float : Nat := 4

/-- Macro `get_bit(data, off)`: `(((data)>>(off))&1)`. The shift is total
here; in C a shift count of 32 or more has no defined behaviour. -/
def get_bit (data off : Nat) : Nat := (data >>> off) &&& 1

/-! ## Data model -/

/-- Numeric value of the enumeration `pixel_format`. -/
abbrev pixel_format := Nat

@[match_pattern] def PF_ERROR : pixel_format := 0
@[match_pattern] def BW1 : pixel_format := 1
@[match_pattern] def BW2 : pixel_format := 2
@[match_pattern] def BW4 : pixel_format := 3
@[match_pattern] def BW8 : pixel_format := 4
@[match_pattern] def BW16 : pixel_format := 5
@[match_pattern] def BWA8 : pixel_format := 6
@[match_pattern] def BWA16 : pixel_format := 7
@[match_pattern] def R8 : pixel_format := 8
@[match_pattern] def R16 : pixel_format := 9
@[match_pattern] def RG8 : pixel_format := 10
@[match_pattern] def RG16 : pixel_format := 11
@[match_pattern] def RGB8 : pixel_format := 12
@[match_pattern] def RGB16 : pixel_format := 13
@[match_pattern] def RGBA8 : pixel_format := 14
@[match_pattern] def RGBA16 : pixel_format := 15
@[match_pattern] def RGBA32F : pixel_format := 16

/-- Value of a C `float`: a finite value kept as an exact rational, an
infinity with its sign, or a NaN. -/
inductive float where
  | fin (q : ℚ)
  | inf (negative : Bool)
  | nan
deriving DecidableEq

/-- Struct `colour`: four `float` channels. -/
structure colour where
  r : float
  g : float
  b : float
  a : float
deriving DecidableEq

/-- Value of the IEEE-754 binary32 bit pattern `bits` (a number below 2^32):
sign in bit 31, biased exponent in bits 23..30, fraction in bits 0..22. -/
def float_of_bits (bits : Nat) : float :=
  let sign := (bits / 2147483648) % 2
  let e := (bits / 8388608) % 256
  let m := bits % 8388608
  let s : ℚ := if sign = 1 then -1 else 1
  if e = 255 then
    if m = 0 then float.inf (sign = 1) else float.nan
  else if e = 0 then
    float.fin (s * (m : ℚ) * (2 : ℚ) ^ (-149 : Int))
  else
    float.fin (s * ((8388608 + m : Nat) : ℚ) * (2 : ℚ) ^ ((e : Int) - 150))

/-- Element `((float*)data)[k]`: the four bytes at `4*k`, least significant
first, reinterpreted as a `float`. -/
def read_float (data : List uint8_t) (k : Nat) : Option float := do
  let b0 ← data[4 * k]?
  let b1 ← data[4 * k + 1]?
  let b2 ← data[4 * k + 2]?
  let b3 ← data[4 * k + 3]?
  some (float_of_bits (b0.val + b1.val * 256 + b2.val * 65536 + b3.val * 16777216))

/-! ## Pixel decoder -/

/-- Function `formatted_to_intermediate` (lines 58-167). -/
def formatted_to_intermediate (data_format : pixel_format) (data : List uint8_t)
    (bit_offset : Nat) : Option colour :=
  match data_format with
  | BW1 => do
    let d0 ← data[0]?
    let r : ℚ := (get_bit d0.val bit_offset : Nat)
    some { a := float.fin 1, r := float.fin r, g := float.fin r, b := float.fin r }
  | BW2 => do
    let d0 ← data[0]?
    let r : ℚ := (get_bit d0.val bit_offset ||| (get_bit d0.val (bit_offset + 1) <<< 1) : Nat)
    let r := r / 3
    some { a := float.fin 1, r := float.fin r, g := float.fin r, b := float.fin r }
  | BW4 => do
    let d0 ← data[0]?
    let r : ℚ := (get_bit d0.val bit_offset ||| (get_bit d0.val (bit_offset + 1) <<< 1) |||
      (get_bit d0.val (bit_offset + 2) <<< 2) ||| (get_bit d0.val (bit_offset + 3) <<< 3) : Nat)
    let r := r / 15
    some { a := float.fin 1, r := float.fin r, g := float.fin r, b := float.fin r }
  | BW8 => do
    let d0 ← data[0]?
    let r : ℚ := (d0.val : Nat)
    let r := r / 255
    some { a := float.fin 1, r := float.fin r, g := float.fin r, b := float.fin r }
  | BW16 => do
    let d0 ← data[0]?
    let d1 ← data[1]?
    let r : ℚ := (d0.val ||| (d1.val <<< 8) : Nat)
    let r := r / 65535
    some { a := float.fin 1, r := float.fin r, g := float.fin r, b := float.fin r }
  | BWA8 => do
    let d0 ← data[0]?
    let d1 ← data[1]?
    let r : ℚ := (d0.val : Nat)
    let a : ℚ := (d1.val : Nat)
    let r := r / 255
    let a := a / 255
    some { r := float.fin r, a := float.fin a, g := float.fin r, b := float.fin r }
  | BWA16 => do
    let d0 ← data[0]?
    let d1 ← data[1]?
    let d2 ← data[2]?
    let d3 ← data[3]?
    let r : ℚ := (d0.val ||| (d1.val <<< 8) : Nat)
    let a : ℚ := (d2.val ||| (d3.val <<< 8) : Nat)
    let r := r / 65535
    let a := a / 65535
    some { r := float.fin r, a := float.fin a, g := float.fin r, b := float.fin r }
  | R8 => do
    let d0 ← data[0]?
    some { r := float.fin ((d0.val : Nat) / 255), g := float.fin 0, b := float.fin 0,
           a := float.fin 1 }
  | R16 => do
    let d0 ← data[0]?
    let d1 ← data[1]?
    some { r := float.fin ((d0.val ||| (d1.val <<< 8) : Nat) / 65535), g := float.fin 0,
           b := float.fin 0, a := float.fin 1 }
  | RG8 => do
    let d0 ← data[0]?
    let d1 ← data[1]?
    some { r := float.fin ((d0.val : Nat) / 255), g := float.fin ((d1.val : Nat) / 255),
           b := float.fin 0, a := float.fin 1 }
  | RG16 => do
    let d0 ← data[0]?
    let d1 ← data[1]?
    let d2 ← data[2]?
    let d3 ← data[3]?
    some { r := float.fin ((d0.val ||| (d1.val <<< 8) : Nat) / 65535),
           g := float.fin ((d2.val ||| (d3.val <<< 8) : Nat) / 65535),
           b := float.fin 0, a := float.fin 0 }
  | RGB8 => do
    let d0 ← data[0]?
    let d1 ← data[1]?
    let d2 ← data[2]?
    some { a := float.fin 1, r := float.fin ((d0.val : Nat) / 255),
           g := float.fin ((d1.val : Nat) / 255), b := float.fin ((d2.val : Nat) / 255) }
  | RGBA8 => do
    let d0 ← data[0]?
    let d1 ← data[1]?
    let d2 ← data[2]?
    let d3 ← data[3]?
    some { r := float.fin ((d0.val : Nat) / 255), g := float.fin ((d1.val : Nat) / 255),
           b := float.fin ((d2.val : Nat) / 255), a := float.fin ((d3.val : Nat) / 255) }
  | RGB16 => do
    let d0 ← data[0]?
    let d1 ← data[1]?
    let d2 ← data[2]?
    let d3 ← data[3]?
    let d4 ← data[4]?
    let d5 ← data[5]?
    some { a := float.fin 1,
           r := float.fin ((d0.val ||| (d1.val <<< 8) : Nat) / 65535),
           g := float.fin ((d2.val ||| (d3.val <<< 8) : Nat) / 65535),
           b := float.fin ((d4.val ||| (d5.val <<< 8) : Nat) / 65535) }
  | RGBA16 => do
    let d0 ← data[0]?
    let d1 ← data[1]?
    let d2 ← data[2]?
    let d3 ← data[3]?
    let d4 ← data[4]?
    let d5 ← data[5]?
    let d6 ← data[6]?
    let d7 ← data[7]?
    some { r := float.fin ((d0.val ||| (d1.val <<< 8) : Nat) / 65535),
           g := float.fin ((d2.val ||| (d3.val <<< 8) : Nat) / 65535),
           b := float.fin ((d4.val ||| (d5.val <<< 8) : Nat) / 65535),
           a := float.fin ((d6.val ||| (d7.val <<< 8) : Nat) / 65535) }
  | RGBA32F => do
    let r ← read_float data 0
    let g ← read_float data 1
    let b ← read_float data 2
    let a ← read_float data 3
    some { r := r, g := g, b := b, a := a }
  | _ => some { r := float.fin 0, g := float.fin 0, b := float.fin 0, a := float.fin 0 }

/-! ## Format table -/

/-- Function `get_pixel_format_bits` (lines 169-202). -/
def get_pixel_format_bits (pf : pixel_format) : Nat :=
  match pf with
  | BW1 => 1
  | BW2 => 2
  | BW4 => 4
  | BW8 => 8
  | R8 => 8
  | BW16 => 16
  | BWA8 => 16
  | R16 => 16
  | RG8 => 16
  | RGB8 => 24
  | BWA16 => 32
  | RG16 => 32
  | RGBA8 => 32
  | RGB16 => 48
  | RGBA16 => 64
  | RGBA32F => 4 * sizeof_float * 8
  | _ => 0

/-! ## Raster walker -/

/-- Cursor update of the loop body of `blit_image` (lines 339-341):
`src_bit+=src_bit_step; src_byte+=src_bit/8; src_bit-=(src_bit/8)*8;` on the
pair `(src_byte, src_bit)`, where `src_bit` and `src_bit_step` are `uint8_t`.
The byte index `src_byte` is an offset into the buffer and is kept as a
natural number. -/
def cursor_advance (src_bit_step : Nat) (c : Nat × Nat) : Nat × Nat :=
  let src_bit := to_uint8 (c.2 + src_bit_step)
  let src_byte := c.1 + src_bit / 8
  let src_bit := to_uint8 (src_bit - (src_bit / 8) * 8)
  (src_byte, src_bit)

/-- Calls made on the SDL renderer. -/
inductive sdl_call where
  | SDL_RenderClear
  | SDL_SetRenderDrawColor (r g b a : Option Nat)
  | SDL_RenderDrawPoint (x y : Int)
  | SDL_RenderPresent
deriving DecidableEq

/-- Conversion of the `double` value `c*255+0.5` to the `Uint8` parameter of
`SDL_SetRenderDrawColor`: the fractional part is discarded; a value whose
integral part is not in 0..255 (or that is not finite) has no defined result. -/
def channel_to_Uint8 (c : float) : Option Nat :=
  match c with
  | float.fin q =>
    let v : ℚ := q * 255 + 1 / 2
    let t : Int := Int.tdiv v.num v.den
    if 0 ≤ t ∧ t ≤ 255 then some t.toNat else none
  | _ => none

/-- One iteration of the loop of `blit_image`: the decoded colour and the
point it is drawn at. -/
structure blit_pixel where
  intermediate : colour
  x : Int
  y : Int
deriving DecidableEq

/-- Loop `for(i=0;i<w*h;i++)` of `blit_image` (lines 332-350) with `n`
iterations left, at index `i` and cursor `c = (src_byte, src_bit)`. -/
def blit_image_loop (w : Int) (pf : pixel_format) (data : List uint8_t) (src_bit_step : Nat) :
    Nat → Nat → Nat × Nat → Option (List blit_pixel)
  | 0, _, _ => some []
  | n + 1, i, c => do
    let intermediate ← formatted_to_intermediate pf (data.drop c.1) c.2
    let c := cursor_advance src_bit_step c
    let rest ← blit_image_loop w pf data src_bit_step n (i + 1) c
    some ({ intermediate := intermediate,
            x := size_t_to_int (i % int_to_size_t w),
            y := size_t_to_int (i / int_to_size_t w) } :: rest)

/-- Iterations of `blit_image`: the sequence of decoded pixels, or `none`
when `w*h` overflows or a pixel is read outside the buffer. -/
def blit_image_pixels (w h : Int) (pf : pixel_format) (data : List uint8_t) :
    Option (List blit_pixel) := do
  let n ← int_mul w h
  blit_image_loop w pf data (to_uint8 (get_pixel_format_bits pf)) (int_to_size_t n) 0 (0, 0)

/-- Renderer calls of one loop iteration. -/
def blit_pixel_calls (p : blit_pixel) : List sdl_call :=
  [sdl_call.SDL_SetRenderDrawColor (channel_to_Uint8 p.intermediate.r)
     (channel_to_Uint8 p.intermediate.g) (channel_to_Uint8 p.intermediate.b)
     (channel_to_Uint8 p.intermediate.a),
   sdl_call.SDL_RenderDrawPoint p.x p.y]

/-- Function `blit_image` (lines 322-353): the renderer calls it makes. -/
def blit_image (w h : Int) (pf : pixel_format) (data : List uint8_t) : Option (List sdl_call) := do
  let pixels ← blit_image_pixels w h pf data
  some ([sdl_call.SDL_RenderClear] ++ (pixels.map blit_pixel_calls).flatten ++
    [sdl_call.SDL_RenderPresent])

/-- The sixteen supported formats. -/
def supported (pf : pixel_format) : Prop := 1 ≤ pf ∧ pf ≤ 16

instance (pf : pixel_format) : Decidable (supported pf) := by
  unfold supported; infer_instance

/-! ## Spec-side definitions used to state the claims -/

/-- Spec-side value of an 8-bit sample: the byte divided by 255. -/
def spec_sample8 (b0 : uint8_t) : float := float.fin ((b0.val : ℚ) / 255)

/-- Spec-side value of a 16-bit sample: the unsigned little-endian value of
the two bytes divided by 65535. -/
def spec_sample16 (lo hi : uint8_t) : float :=
  float.fin (((lo.val + 256 * hi.val : Nat) : ℚ) / 65535)

/-- Spec-side list of the channels of `c` that format `pf` populates from the
buffer (grey is replicated into red, green and blue). -/
def spec_populated (pf : pixel_format) (c : colour) : List float :=
  match pf with
  | BW1 => [c.r, c.g, c.b]
  | BW2 => [c.r, c.g, c.b]
  | BW4 => [c.r, c.g, c.b]
  | BW8 => [c.r, c.g, c.b]
  | BW16 => [c.r, c.g, c.b]
  | BWA8 => [c.r, c.g, c.b, c.a]
  | BWA16 => [c.r, c.g, c.b, c.a]
  | R8 => [c.r]
  | R16 => [c.r]
  | RG8 => [c.r, c.g]
  | RG16 => [c.r, c.g]
  | RGB8 => [c.r, c.g, c.b]
  | RGB16 => [c.r, c.g, c.b]
  | RGBA8 => [c.r, c.g, c.b, c.a]
  | RGBA16 => [c.r, c.g, c.b, c.a]
  | RGBA32F => [c.r, c.g, c.b, c.a]
  | _ => []

/-- Buffer of `n` zero bytes, used as a concrete input. -/
def zero_buffer (n : Nat) : List uint8_t := List.replicate n 0

/-! ## Command line -/

/-- C string: its characters before the terminating NUL. -/
abbrev c_string := List Char

/-- Library function `isspace` in the C locale: space, \t, \n, \v, \f, \r. -/
def isspace (c : Char) : Bool :=
  c = ' ' || (9 ≤ c.toNat && c.toNat ≤ 13)

/-- Library function `isdigit`. -/
def isdigit (c : Char) : Bool := 48 ≤ c.toNat && c.toNat ≤ 57

/-- Digits read by `atoi`: the value of the longest prefix of decimal digits,
accumulated from `acc`. -/
def atoi_digits (acc : Nat) : c_string → Nat
  | [] => acc
  | c :: cs => if isdigit c then atoi_digits (acc * 10 + (c.toNat - 48)) cs else acc

/-- Value read by `atoi` once leading white space is skipped: an optional
sign, then the decimal digits; text without digits gives 0. -/
def atoi_value (s : c_string) : Int :=
  match s with
  | '-' :: t => -(atoi_digits 0 t : Int)
  | '+' :: t => (atoi_digits 0 t : Int)
  | _ => (atoi_digits 0 s : Int)

/-- Library function `atoi`: leading white space is skipped, then an optional
sign and the decimal digits are read. The C standard leaves the result
undefined when the value is not representable as an `int`; that case is
`none`. -/
def atoi (s : c_string) : Option Int :=
  let v := atoi_value (s.dropWhile isspace)
  if INT_MIN ≤ v ∧ v ≤ INT_MAX then some v else none

/-- Variables of `parse_args`: the four outputs behind the pointer parameters
and the local flags. A width or height of `none` is the result of an `atoi`
call whose value is not representable; a filename of `none` is `NULL`. -/
structure parse_vars where
  w : Option Int
  h : Option Int
  pf : pixel_format
  filename : Option c_string
  width_set : Bool
  height_set : Bool
  pf_set : Bool
  filename_set : Bool
  parse_fail : Bool
deriving DecidableEq

/-- Case `p` of the switch of `parse_args` (lines 272-291): the chain of
`strcmp` calls on `argv[i]+3`. -/
def parse_pixel_format (st : parse_vars) (name : c_string) : parse_vars :=
  if name = "BW1".toList then { st with pf_set := true, pf := BW1 }
  else if name = "BW2".toList then { st with pf_set := true, pf := BW2 }
  else if name = "BW4".toList then { st with pf_set := true, pf := BW4 }
  else if name = "BW8".toList then { st with pf_set := true, pf := BW8 }
  else if name = "BW16".toList then { st with pf_set := true, pf := BW16 }
  else if name = "BWA8".toList then { st with pf_set := true, pf := BWA8 }
  else if name = "BWA16".toList then { st with pf_set := true, pf := BWA16 }
  else if name = "R8".toList then { st with pf_set := true, pf := R8 }
  else if name = "R16".toList then { st with pf_set := true, pf := R16 }
  else if name = "RG8".toList then { st with pf_set := true, pf := RG8 }
  else if name = "RG16".toList then { st with pf_set := true, pf := RG16 }
  else if name = "RGB8".toList then { st with pf_set := true, pf := RGB8 }
  else if name = "RGB16".toList then { st with pf_set := true, pf := RGB16 }
  else if name = "RGBA8".toList then { st with pf_set := true, pf := RGBA8 }
  else if name = "RGBA16".toList then { st with pf_set := true, pf := RGBA16 }
  else if name = "RGBA32F".toList then { st with pf_set := true, pf := RGBA32F }
  else { st with pf_set := false }

/-- Switch on `argv[i][1]` in the loop of `parse_args` (lines 254-292); there
is no default case. -/
def parse_arg (st : parse_vars) (arg : c_string) : parse_vars :=
  match arg[1]? with
  | some 'w' => { st with w := atoi (arg.drop 3), width_set := true }
  | some 'h' => { st with h := atoi (arg.drop 3), height_set := true }
  | some 'f' => { st with filename := some (arg.drop 3), filename_set := true }
  | some 'p' => parse_pixel_format st (arg.drop 3)
  | _ => st

/-- Loop `for(i=1; i<argc; i++)` of `parse_args` (lines 246-293) over the
remaining arguments. -/
def parse_args_loop : List c_string → parse_vars → parse_vars
  | [], st => st
  | arg :: rest, st =>
    if arg.head? ≠ some '-' ∨ arg.length < 4 then { st with parse_fail := true }
    else parse_args_loop rest (parse_arg st arg)

/-- Result of `parse_args`: the return code and the values left behind the
four pointer parameters. -/
structure parse_result where
  code : Int
  w : Option Int
  h : Option Int
  pf : pixel_format
  filename : Option c_string
deriving DecidableEq

/-- Function `parse_args` (lines 229-305). `argv` holds all `argc` strings,
the program name first; `w`, `h`, `pf`, `filename` are the values the pointer
parameters hold at the call. -/
def parse_args (argv : List c_string) (w h : Option Int) (pf : pixel_format)
    (filename : Option c_string) : parse_result :=
  if argv.length ≠ 5 then
    { code := 1, w := w, h := h, pf := pf, filename := filename }
  else
    let st := parse_args_loop argv.tail
      { w := w, h := h, pf := pf, filename := filename, width_set := false,
        height_set := false, pf_set := false, filename_set := false, parse_fail := false }
    if !st.width_set || !st.height_set || !st.pf_set || !st.filename_set || st.parse_fail then
      { code := 2, w := st.w, h := st.h, pf := st.pf,
        filename := if st.filename_set then none else st.filename }
    else
      { code := 0, w := st.w, h := st.h, pf := st.pf, filename := st.filename }

/-! ## Program entry -/

/-- Expression `width*height*get_pixel_format_bits(pf)/8` of `main` (line 380)
as stored in the `int` variable `image_bytes`: the `int` product `width*height`
is converted to `size_t`, multiplied and divided in `size_t`, and the
quotient is converted back to `int`. -/
def image_bytes (width height : Int) (pf : pixel_format) : Option Int := do
  let n ← int_mul width height
  some (size_t_to_int
    ((int_to_size_t n * get_pixel_format_bits pf) % 18446744073709551616 / 8))

/-- Store `image_data[i]=(uint8_t)c`: `none` when `i` is outside the block. -/
def store_byte (image_data : List uint8_t) (i : Int) (c : uint8_t) : Option (List uint8_t) :=
  if 0 ≤ i ∧ i < (image_data.length : Int) then some (image_data.set i.toNat c) else none

/-- Loop `for(i=0; (c=fgetc(image_file)) != EOF && i < image_bytes; i++)
image_data[i]=(uint8_t)c;` of `main` (lines 390-391). The first argument is
the part of the file not yet read, `image_data` the content of the allocated
block; the result is the block after the loop, `none` when a store falls
outside it. -/
def load_loop (image_bytes : Int) : List uint8_t → Int → List uint8_t → Option (List uint8_t)
  | [], _, image_data => some image_data
  | c :: file, i, image_data =>
    if i < image_bytes then do
      let image_data ← store_byte image_data i c
      load_loop image_bytes file (i + 1) image_data
    else some image_data

/-- What a run of `main` does. -/
inductive main_outcome where
  | usage
  | file_missing
  | display (calls : Option (List sdl_call))
  | undefined
deriving DecidableEq

/-- Function `main` (lines 362-414) up to the event loop. `fopen` gives the
content of the named file when it can be opened; `malloc` gives the
indeterminate initial content of a newly allocated block of the requested
size. -/
def main (argv : List c_string) (fopen : c_string → Option (List uint8_t))
    (malloc : Nat → List uint8_t) : main_outcome :=
  let r := parse_args argv (some 0) (some 0) PF_ERROR none
  if r.code ≠ 0 then main_outcome.usage
  else
    match r.w, r.h, r.filename with
    | some width, some height, some filename =>
      match image_bytes width height r.pf with
      | none => main_outcome.undefined
      | some n =>
        let image_data := malloc (int_to_size_t n)
        match fopen filename with
        | none => main_outcome.file_missing
        | some file =>
          match load_loop n file 0 image_data with
          | none => main_outcome.undefined
          | some image_data => main_outcome.display (blit_image width height r.pf image_data)
    | _, _, _ => main_outcome.undefined

/-! ## Spec-side definitions for the later claims -/

/-- Spec-side count `ceil(bits / 8)` of whole bytes that hold `bits` bits. -/
def spec_ceil_bytes (bits : Nat) : Nat := (bits + 7) / 8

/-- Spec-side range of a normalised channel: a finite value in [0, 1]. -/
def spec_unit_channel (x : float) : Prop :=
  match x with
  | float.fin q => 0 ≤ q ∧ q ≤ 1
  | _ => False

/-- Spec-side list of the formats that store no alpha sample. -/
def spec_alpha_less : List pixel_format :=
  [BW1, BW2, BW4, BW8, BW16, R8, R16, RG8, RG16, RGB8, RGB16]

/-- Spec-side decimal text of a natural number. -/
def spec_decimal (n : Nat) : c_string := Nat.toDigits 10 n

/-- Spec-side table of the sixteen format names and their enumerators. -/
def spec_format_names : List (c_string × pixel_format) :=
  [("BW1".toList, BW1), ("BW2".toList, BW2), ("BW4".toList, BW4), ("BW8".toList, BW8),
   ("BW16".toList, BW16), ("BWA8".toList, BWA8), ("BWA16".toList, BWA16), ("R8".toList, R8),
   ("R16".toList, R16), ("RG8".toList, RG8), ("RG16".toList, RG16), ("RGB8".toList, RGB8),
   ("RGB16".toList, RGB16), ("RGBA8".toList, RGBA8), ("RGBA16".toList, RGBA16),
   ("RGBA32F".toList, RGBA32F)]

/-- Spec-side bit `p` of the buffer seen as a stream of bits, least
significant bit of each byte first (0 past the end). -/
def spec_stream_bit (data : List uint8_t) (p : Nat) : Nat :=
  match data[p / 8]? with
  | some d => (d.val / 2 ^ (p % 8)) % 2
  | none => 0

/-- Spec-side value of the `N` bits of the stream that start at bit `p`,
least significant first. -/
def spec_bit_field (data : List uint8_t) (p N : Nat) : Nat :=
  ((List.range N).map (fun j => spec_stream_bit data (p + j) * 2 ^ j)).sum

/-- Number of the four flags `width_set`, `height_set`, `pf_set`,
`filename_set` that are set. -/
def parse_flags_set (st : parse_vars) : Nat :=
  st.width_set.toNat + st.height_set.toNat + st.pf_set.toNat + st.filename_set.toNat

/-- Spec-side test: the argument selects the letter `p` and the text after
its first three characters is none of the sixteen format names. -/
def spec_bad_format_arg (arg : c_string) : Bool :=
  arg[1]? = some 'p' && !((spec_format_names.map Prod.fst).contains (arg.drop 3))

/-- Spec-side test: the argument does not begin with `-` or has fewer than
four characters. -/
def spec_ill_shaped (arg : c_string) : Bool :=
  arg.head? ≠ some '-' || arg.length < 4

/-- Spec-side argument text `-<letter>=<value>`. -/
def spec_arg (letter : Char) (value : c_string) : c_string :=
  '-' :: letter :: '=' :: value

/-! ## Bit-level lemmas -/

theorem get_bit_eq (d off : Nat) : get_bit d off = (d / 2 ^ off) % 2 := by
  unfold get_bit
  rw [Nat.and_one_is_mod, Nat.shiftRight_eq_div_pow]

theorem get_bit_add (d off k : Nat) : get_bit d (off + k) = ((d >>> off) / 2 ^ k) % 2 := by
  rw [get_bit_eq, Nat.shiftRight_eq_div_pow, Nat.div_div_eq_div_mul, pow_add]

theorem pack2 (x : Nat) : ((x / 2 ^ 0) % 2 ||| (((x / 2 ^ 1) % 2) <<< 1)) = x % 2 ^ 2 := by
  have h : x % 4 < 4 := Nat.mod_lt _ (by decide)
  have e0 : (x / 2 ^ 0) % 2 = (x % 4) % 2 := by simp; omega
  have e1 : (x / 2 ^ 1) % 2 = (x % 4) / 2 := by simp; omega
  rw [e0, e1, show (2:Nat) ^ 2 = 4 from rfl]
  generalize x % 4 = r at h
  interval_cases r <;> rfl

theorem pack4 (x : Nat) :
    ((x / 2 ^ 0) % 2 ||| (((x / 2 ^ 1) % 2) <<< 1) ||| (((x / 2 ^ 2) % 2) <<< 2) |||
      (((x / 2 ^ 3) % 2) <<< 3)) = x % 2 ^ 4 := by
  have h : x % 16 < 16 := Nat.mod_lt _ (by decide)
  have e0 : (x / 2 ^ 0) % 2 = (x % 16) % 2 := by simp; omega
  have e1 : (x / 2 ^ 1) % 2 = (x % 16) / 2 % 2 := by simp; omega
  have e2 : (x / 2 ^ 2) % 2 = (x % 16) / 4 % 2 := by simp; omega
  have e3 : (x / 2 ^ 3) % 2 = (x % 16) / 8 % 2 := by simp; omega
  rw [e0, e1, e2, e3, show (2:Nat) ^ 4 = 16 from rfl]
  generalize x % 16 = r at h
  interval_cases r <;> rfl

theorem le16_eq (lo hi : uint8_t) : (lo.val ||| (hi.val <<< 8)) = lo.val + 256 * hi.val := by
  have h := @Nat.mul_add_lt_is_or 8 lo.val lo.isLt hi.val
  rw [Nat.shiftLeft_eq, Nat.or_comm, Nat.mul_comm hi.val, ← h]
  norm_num
  omega

theorem val_ff : ((255 : uint8_t) : Nat) = 255 := rfl

theorem val_zero : ((0 : uint8_t) : Nat) = 0 := rfl

/-! ## Format table (C1, C8) -/

/-- C1: every one of the sixteen formats has a positive bit width, equal to
the documented one: BW1=1, BW2=2, BW4=4, BW8=R8=8, BW16=BWA8=R16=RG8=16,
RGB8=24, BWA16=RG16=RGBA8=32, RGB16=48, RGBA16=64, RGBA32F=128. -/
theorem get_pixel_format_bits_table :
    (∀ pf, supported pf → 0 < get_pixel_format_bits pf) ∧
    get_pixel_format_bits BW1 = 1 ∧ get_pixel_format_bits BW2 = 2 ∧
    get_pixel_format_bits BW4 = 4 ∧ get_pixel_format_bits BW8 = 8 ∧
    get_pixel_format_bits R8 = 8 ∧ get_pixel_format_bits BW16 = 16 ∧
    get_pixel_format_bits BWA8 = 16 ∧ get_pixel_format_bits R16 = 16 ∧
    get_pixel_format_bits RG8 = 16 ∧ get_pixel_format_bits RGB8 = 24 ∧
    get_pixel_format_bits BWA16 = 32 ∧ get_pixel_format_bits RG16 = 32 ∧
    get_pixel_format_bits RGBA8 = 32 ∧ get_pixel_format_bits RGB16 = 48 ∧
    get_pixel_format_bits RGBA16 = 64 ∧ get_pixel_format_bits RGBA32F = 128 := by
  refine ⟨?_, rfl, rfl, rfl, rfl, rfl, rfl, rfl, rfl, rfl, rfl, rfl, rfl, rfl, rfl, rfl, rfl⟩
  rintro pf ⟨h1, h2⟩
  interval_cases pf <;> decide

/-- C8: a format identifier that is none of the sixteen supported formats
(PF_ERROR = 0 or a value above RGBA32F = 16) decodes to (0,0,0,0) for every
buffer and bit offset, and has bit width 0. -/
theorem unrecognised_format_sentinel (pf : pixel_format) (h : pf = PF_ERROR ∨ RGBA32F < pf)
    (data : List uint8_t) (bit_offset : Nat) :
    formatted_to_intermediate pf data bit_offset =
        some { r := float.fin 0, g := float.fin 0, b := float.fin 0, a := float.fin 0 } ∧
      get_pixel_format_bits pf = 0 := by
  rcases h with rfl | h
  · exact ⟨rfl, rfl⟩
  · obtain ⟨k, rfl⟩ : ∃ k, pf = k + 17 := ⟨pf - 17, (Nat.sub_add_cancel (show 17 ≤ pf from h)).symm⟩
    exact ⟨rfl, rfl⟩

/-- Witness of C8 at the identifiers 0 (PF_ERROR) and 17. -/
theorem unrecognised_format_sentinel_witness :
    ((0 : pixel_format) = PF_ERROR ∨ RGBA32F < 0) ∧ ((17 : pixel_format) = PF_ERROR ∨ RGBA32F < 17) ∧
    (formatted_to_intermediate 0 [255, 3] 5 =
        some { r := float.fin 0, g := float.fin 0, b := float.fin 0, a := float.fin 0 } ∧
      get_pixel_format_bits 0 = 0) ∧
    (formatted_to_intermediate 17 [] 0 =
        some { r := float.fin 0, g := float.fin 0, b := float.fin 0, a := float.fin 0 } ∧
      get_pixel_format_bits 17 = 0) :=
  ⟨Or.inl rfl, Or.inr (by decide),
    unrecognised_format_sentinel 0 (Or.inl rfl) [255, 3] 5,
    unrecognised_format_sentinel 17 (Or.inr (by decide)) [] 0⟩

/-! ## Pixel decoder (C4, C5, C6, C7) -/

/-- C4: for N in 1, 2, 4 (formats BW1, BW2, BW4), every first byte d and every
bit offset with bit_offset + N at most 8, the decoder returns
r = ((d >> bit_offset) mod 2^N) / (2^N - 1), g = b = r and a = 1. -/
theorem sub_byte_greyscale (pf : pixel_format) (N : Nat)
    (hN : (pf = BW1 ∧ N = 1) ∨ (pf = BW2 ∧ N = 2) ∨ (pf = BW4 ∧ N = 4))
    (d : uint8_t) (rest : List uint8_t) (bit_offset : Nat) (hoff : bit_offset + N ≤ 8) :
    formatted_to_intermediate pf (d :: rest) bit_offset =
      some { r := float.fin ((((d.val >>> bit_offset) % 2 ^ N : Nat) : ℚ) / ((2 ^ N - 1 : Nat) : ℚ)),
             g := float.fin ((((d.val >>> bit_offset) % 2 ^ N : Nat) : ℚ) / ((2 ^ N - 1 : Nat) : ℚ)),
             b := float.fin ((((d.val >>> bit_offset) % 2 ^ N : Nat) : ℚ) / ((2 ^ N - 1 : Nat) : ℚ)),
             a := float.fin 1 } := by
  have g0 : get_bit d.val bit_offset = ((d.val >>> bit_offset) / 2 ^ 0) % 2 :=
    get_bit_add d.val bit_offset 0
  have g1 := get_bit_add d.val bit_offset 1
  have g2 := get_bit_add d.val bit_offset 2
  have g3 := get_bit_add d.val bit_offset 3
  rcases hN with ⟨rfl, rfl⟩ | ⟨rfl, rfl⟩ | ⟨rfl, rfl⟩
  · simp [formatted_to_intermediate, g0]
  · simp [formatted_to_intermediate]
    rw [g0, g1, pack2]
    norm_num
  · simp [formatted_to_intermediate]
    rw [g0, g1, g2, g3, pack4]
    norm_num

/-- Witness of C4: BW1 on the byte 0b00000001 at bit offset 0 gives (1,1,1,1). -/
theorem sub_byte_greyscale_witness :
    0 + 1 ≤ 8 ∧
    formatted_to_intermediate BW1 [1] 0 =
      some { r := float.fin 1, g := float.fin 1, b := float.fin 1, a := float.fin 1 } :=
  ⟨by decide, by
    rw [sub_byte_greyscale BW1 1 (Or.inl ⟨rfl, rfl⟩) 1 [] 0 (by decide)]
    norm_num⟩


/-- C5: for each byte-aligned integer format the stored channels, in the
order red, green, blue, alpha (grey then alpha for BWA8 and BWA16, grey being
replicated into red, green and blue), are the unsigned little-endian values
of consecutive 1-byte or 2-byte samples divided by 255 or 65535, whatever the
bit offset; R16 on the bytes 0xFF, 0xFF gives (1,0,0,1). -/
theorem byte_aligned_channels (b0 b1 b2 b3 b4 b5 b6 b7 : uint8_t) (rest : List uint8_t)
    (bit_offset : Nat) :
    formatted_to_intermediate BW8 (b0 :: rest) bit_offset =
      some { r := spec_sample8 b0, g := spec_sample8 b0, b := spec_sample8 b0,
             a := float.fin 1 } ∧
    formatted_to_intermediate BW16 (b0 :: b1 :: rest) bit_offset =
      some { r := spec_sample16 b0 b1, g := spec_sample16 b0 b1, b := spec_sample16 b0 b1,
             a := float.fin 1 } ∧
    formatted_to_intermediate BWA8 (b0 :: b1 :: rest) bit_offset =
      some { r := spec_sample8 b0, g := spec_sample8 b0, b := spec_sample8 b0,
             a := spec_sample8 b1 } ∧
    formatted_to_intermediate BWA16 (b0 :: b1 :: b2 :: b3 :: rest) bit_offset =
      some { r := spec_sample16 b0 b1, g := spec_sample16 b0 b1, b := spec_sample16 b0 b1,
             a := spec_sample16 b2 b3 } ∧
    formatted_to_intermediate R8 (b0 :: rest) bit_offset =
      some { r := spec_sample8 b0, g := float.fin 0, b := float.fin 0, a := float.fin 1 } ∧
    formatted_to_intermediate R16 (b0 :: b1 :: rest) bit_offset =
      some { r := spec_sample16 b0 b1, g := float.fin 0, b := float.fin 0,
             a := float.fin 1 } ∧
    formatted_to_intermediate RG8 (b0 :: b1 :: rest) bit_offset =
      some { r := spec_sample8 b0, g := spec_sample8 b1, b := float.fin 0,
             a := float.fin 1 } ∧
    (∃ c, formatted_to_intermediate RG16 (b0 :: b1 :: b2 :: b3 :: rest) bit_offset = some c ∧
      c.r = spec_sample16 b0 b1 ∧ c.g = spec_sample16 b2 b3) ∧
    formatted_to_intermediate RGB8 (b0 :: b1 :: b2 :: rest) bit_offset =
      some { r := spec_sample8 b0, g := spec_sample8 b1, b := spec_sample8 b2,
             a := float.fin 1 } ∧
    formatted_to_intermediate RGB16 (b0 :: b1 :: b2 :: b3 :: b4 :: b5 :: rest) bit_offset =
      some { r := spec_sample16 b0 b1, g := spec_sample16 b2 b3, b := spec_sample16 b4 b5,
             a := float.fin 1 } ∧
    formatted_to_intermediate RGBA8 (b0 :: b1 :: b2 :: b3 :: rest) bit_offset =
      some { r := spec_sample8 b0, g := spec_sample8 b1, b := spec_sample8 b2,
             a := spec_sample8 b3 } ∧
    formatted_to_intermediate RGBA16
        (b0 :: b1 :: b2 :: b3 :: b4 :: b5 :: b6 :: b7 :: rest) bit_offset =
      some { r := spec_sample16 b0 b1, g := spec_sample16 b2 b3, b := spec_sample16 b4 b5,
             a := spec_sample16 b6 b7 } ∧
    formatted_to_intermediate R16 [255, 255] 0 =
      some { r := float.fin 1, g := float.fin 0, b := float.fin 0, a := float.fin 1 } := by
  refine ⟨?_, ?_, ?_, ?_, ?_, ?_, ?_, ?_, ?_, ?_, ?_, ?_, ?_⟩ <;>
    simp [formatted_to_intermediate, spec_sample8, spec_sample16, le16_eq, val_ff]
  norm_num

/-- C6 (evaluation at the failing input): on an all-zero buffer RG16, which
has no alpha channel, decodes to alpha 0 and not to alpha 1, whereas its
sibling RG8 decodes to alpha 1. -/
theorem rg16_zero_buffer_alpha :
    formatted_to_intermediate RG16 [0, 0, 0, 0] 0 =
      some { r := float.fin 0, g := float.fin 0, b := float.fin 0, a := float.fin 0 } ∧
    formatted_to_intermediate RG16 [0, 0, 0, 0] 0 ≠
      some { r := float.fin 0, g := float.fin 0, b := float.fin 0, a := float.fin 1 } ∧
    formatted_to_intermediate RG8 [0, 0] 0 =
      some { r := float.fin 0, g := float.fin 0, b := float.fin 0, a := float.fin 1 } := by
  simp [formatted_to_intermediate, val_zero]

/-- C7 (counterexample): for RGBA32F a buffer whose sixteen bytes are all 0xFF
decodes to NaN in all four channels, so the populated channels are not 1. -/
theorem rgba32f_all_ones_not_one :
    formatted_to_intermediate RGBA32F (List.replicate 16 255) 0 =
      some { r := float.nan, g := float.nan, b := float.nan, a := float.nan } ∧
    ¬ ∃ c, formatted_to_intermediate RGBA32F (List.replicate 16 255) 0 = some c ∧
      ∀ x ∈ spec_populated RGBA32F c, x = float.fin 1 := by
  have h : formatted_to_intermediate RGBA32F (List.replicate 16 255) 0 =
      some { r := float.nan, g := float.nan, b := float.nan, a := float.nan } := by
    simp [formatted_to_intermediate, read_float, List.replicate, val_ff, float_of_bits]
  refine ⟨h, ?_⟩
  rintro ⟨c, hc, hall⟩
  rw [h] at hc
  cases hc
  simp [spec_populated] at hall


theorem replicate_ff_get (n j : Nat) (h : j < n) :
    (List.replicate n (255 : uint8_t))[j]? = some 255 := by
  simp [List.getElem?_replicate, h]

theorem get_bit_ff (off : Nat) (h : off < 8) : get_bit 255 off = 1 := by
  interval_cases off <;> decide

/-- C7 (amended): for every supported format other than RGBA32F, a buffer
whose bytes are all 0xFF and that holds the pixel decodes to 1 in every
channel the format populates; for BW1, BW2 and BW4 the bit offset keeps the
pixel inside the first byte, for the other formats it is arbitrary. -/
theorem all_ones_integer_formats (pf : pixel_format) (hpf : supported pf) (hne : pf ≠ RGBA32F)
    (n : Nat) (hn : get_pixel_format_bits pf ≤ 8 * n) (bit_offset : Nat)
    (hoff : get_pixel_format_bits pf < 8 → bit_offset + get_pixel_format_bits pf ≤ 8) :
    ∃ c, formatted_to_intermediate pf (List.replicate n 255) bit_offset = some c ∧
      ∀ x ∈ spec_populated pf c, x = float.fin 1 := by
  obtain ⟨h1, h2⟩ := hpf
  have h3 : pf ≠ 16 := hne
  have e : ∀ j, j < n → (List.replicate n (255 : uint8_t))[j]? = some 255 :=
    replicate_ff_get n
  interval_cases pf
  · have hb : bit_offset + 1 ≤ 8 := hoff (by decide)
    have h0 := e 0 (by change 1 ≤ 8 * n at hn; omega)
    have g0 := get_bit_ff bit_offset (by omega)
    simp [formatted_to_intermediate, spec_populated, h0, g0, val_ff]
  · have hb : bit_offset + 2 ≤ 8 := hoff (by decide)
    have h0 := e 0 (by change 2 ≤ 8 * n at hn; omega)
    have g0 := get_bit_ff bit_offset (by omega)
    have g1 := get_bit_ff (bit_offset + 1) (by omega)
    simp [formatted_to_intermediate, spec_populated, h0, g0, g1, val_ff]
  · have hb : bit_offset + 4 ≤ 8 := hoff (by decide)
    have h0 := e 0 (by change 4 ≤ 8 * n at hn; omega)
    have g0 := get_bit_ff bit_offset (by omega)
    have g1 := get_bit_ff (bit_offset + 1) (by omega)
    have g2 := get_bit_ff (bit_offset + 2) (by omega)
    have g3 := get_bit_ff (bit_offset + 3) (by omega)
    simp [formatted_to_intermediate, spec_populated, h0, g0, g1, g2, g3, val_ff]
  all_goals first
    | exact absurd rfl h3
    | (have hn8 : 64 ≤ 8 * n := hn
       simp [formatted_to_intermediate, spec_populated, val_ff, e 0 (by omega), e 1 (by omega),
         e 2 (by omega), e 3 (by omega), e 4 (by omega), e 5 (by omega), e 6 (by omega),
         e 7 (by omega)])
    | (have hn6 : 48 ≤ 8 * n := hn
       simp [formatted_to_intermediate, spec_populated, val_ff, e 0 (by omega), e 1 (by omega),
         e 2 (by omega), e 3 (by omega), e 4 (by omega), e 5 (by omega)])
    | (have hn4 : 32 ≤ 8 * n := hn
       simp [formatted_to_intermediate, spec_populated, val_ff, e 0 (by omega), e 1 (by omega),
         e 2 (by omega), e 3 (by omega)])
    | (have hn3 : 24 ≤ 8 * n := hn
       simp [formatted_to_intermediate, spec_populated, val_ff, e 0 (by omega), e 1 (by omega),
         e 2 (by omega)])
    | (have hn2 : 16 ≤ 8 * n := hn
       simp [formatted_to_intermediate, spec_populated, val_ff, e 0 (by omega), e 1 (by omega)])
    | (have hn1 : 8 ≤ 8 * n := hn
       simp [formatted_to_intermediate, spec_populated, val_ff, e 0 (by omega)])

/-- Witness of the amended C7 at RGBA16 with eight 0xFF bytes. -/
theorem all_ones_integer_formats_witness :
    supported RGBA16 ∧ RGBA16 ≠ RGBA32F ∧ get_pixel_format_bits RGBA16 ≤ 8 * 8 ∧
    (get_pixel_format_bits RGBA16 < 8 → 0 + get_pixel_format_bits RGBA16 ≤ 8) ∧
    ∃ c, formatted_to_intermediate RGBA16 (List.replicate 8 255) 0 = some c ∧
      ∀ x ∈ spec_populated RGBA16 c, x = float.fin 1 :=
  ⟨by decide, by decide, by decide, by decide,
    all_ones_integer_formats RGBA16 (by decide) (by decide) 8 (by decide) 0 (by decide)⟩

/-! ## Bit cursor (C9, C10) -/

theorem cursor_advance_exact (s byte bit : Nat) (h : bit + s < 256) :
    cursor_advance s (byte, bit) = (byte + (bit + s) / 8, (bit + s) % 8) := by
  unfold cursor_advance to_uint8
  refine Prod.ext ?_ ?_ <;> simp only <;> omega

theorem cursor_advance_iterate (s : Nat) (hs : s + 7 < 256) (byte bit : Nat) (hbit : bit < 8)
    (m : Nat) :
    (cursor_advance s)^[m] (byte, bit) = (byte + (bit + s * m) / 8, (bit + s * m) % 8) := by
  induction m with
  | zero =>
    refine Prod.ext ?_ ?_ <;> simp <;> omega
  | succ m ih =>
    rw [Function.iterate_succ_apply', ih, cursor_advance_exact _ _ _ (by omega), Nat.mul_succ]
    generalize s * m = t
    refine Prod.ext ?_ ?_ <;> simp only <;> omega


/-- C9 (counterexample): from the cursor (0,0), two advances by the step 128
reach byte 32, while one advance by 128*2 = 256, which an 8-bit step cannot
hold, leaves the cursor at (0,0). -/
theorem cursor_advance_step_wraps :
    (cursor_advance (to_uint8 128))^[2] (0, 0) = (32, 0) ∧
    cursor_advance (to_uint8 (128 * 2)) (0, 0) = (0, 0) ∧
    (cursor_advance (to_uint8 128))^[2] (0, 0) ≠ cursor_advance (to_uint8 (128 * 2)) (0, 0) := by
  decide

/-- C9 (amended): when bit + k*n is below 256, so that neither the 8-bit bit
index nor the 8-bit step wraps, n advances by k from the cursor (byte, bit)
with bit in [0,8) reach the same cursor as one advance by k*n. -/
theorem cursor_advance_repeat (k n byte bit : Nat) (hbit : bit < 8) (hfit : bit + k * n < 256) :
    (cursor_advance (to_uint8 k))^[n] (byte, bit) =
      cursor_advance (to_uint8 (k * n)) (byte, bit) := by
  have hkn : to_uint8 (k * n) = k * n := Nat.mod_eq_of_lt (by omega)
  rw [hkn, cursor_advance_exact _ _ _ hfit]
  rcases n with _ | _ | n
  · refine Prod.ext ?_ ?_ <;> simp <;> omega
  · have hk : to_uint8 k = k := Nat.mod_eq_of_lt (by omega)
    rw [hk, Function.iterate_one, cursor_advance_exact _ _ _ (by omega)]
    simp
  · have h2 : k * 2 ≤ k * (n + 1 + 1) := Nat.mul_le_mul_left k (by omega)
    have hk : to_uint8 k = k := Nat.mod_eq_of_lt (by omega)
    rw [hk, cursor_advance_iterate k (by omega) byte bit hbit]

/-- Witness of the amended C9: three advances by 40 bits from byte 5, bit 3. -/
theorem cursor_advance_repeat_witness :
    3 < 8 ∧ 3 + 40 * 3 < 256 ∧
    (cursor_advance (to_uint8 40))^[3] (5, 3) = cursor_advance (to_uint8 (40 * 3)) (5, 3) :=
  ⟨by decide, by decide, cursor_advance_repeat 40 3 5 3 (by decide) (by decide)⟩

/-- C10: for the step s of a supported format and a cursor (byte, bit) with
bit in [0,8), one advance gives (byte1, bit1) with bit1 in [0,8) and
8*byte1 + bit1 = 8*byte + bit + s, the byte index does not decrease, and after
i advances from (0,0) the cursor is at byte (i*s) div 8, bit (i*s) mod 8. -/
theorem cursor_advance_invariant (pf : pixel_format) (hpf : supported pf) (byte bit : Nat)
    (hbit : bit < 8) :
    (cursor_advance (to_uint8 (get_pixel_format_bits pf)) (byte, bit)).2 < 8 ∧
    8 * (cursor_advance (to_uint8 (get_pixel_format_bits pf)) (byte, bit)).1 +
        (cursor_advance (to_uint8 (get_pixel_format_bits pf)) (byte, bit)).2 =
      8 * byte + bit + get_pixel_format_bits pf ∧
    byte ≤ (cursor_advance (to_uint8 (get_pixel_format_bits pf)) (byte, bit)).1 ∧
    ∀ i, (cursor_advance (to_uint8 (get_pixel_format_bits pf)))^[i] (0, 0) =
      (i * get_pixel_format_bits pf / 8, i * get_pixel_format_bits pf % 8) := by
  have hs : get_pixel_format_bits pf ≤ 128 := by
    obtain ⟨h1, h2⟩ := hpf
    interval_cases pf <;> decide
  have hk : to_uint8 (get_pixel_format_bits pf) = get_pixel_format_bits pf :=
    Nat.mod_eq_of_lt (by omega)
  rw [hk, cursor_advance_exact _ _ _ (by omega)]
  refine ⟨?_, ?_, ?_, ?_⟩
  · simp only; omega
  · simp only; omega
  · simp only; omega
  · intro i
    rw [cursor_advance_iterate _ (by omega) 0 0 (by decide), Nat.mul_comm]
    simp

/-- Witness of C10 at RGB8 (24 bits) from byte 7, bit 0. -/
theorem cursor_advance_invariant_witness :
    supported RGB8 ∧ 0 < 8 ∧
    (cursor_advance (to_uint8 (get_pixel_format_bits RGB8)) (7, 0)).2 < 8 ∧
    8 * (cursor_advance (to_uint8 (get_pixel_format_bits RGB8)) (7, 0)).1 +
        (cursor_advance (to_uint8 (get_pixel_format_bits RGB8)) (7, 0)).2 =
      8 * 7 + 0 + get_pixel_format_bits RGB8 ∧
    7 ≤ (cursor_advance (to_uint8 (get_pixel_format_bits RGB8)) (7, 0)).1 ∧
    ∀ i, (cursor_advance (to_uint8 (get_pixel_format_bits RGB8)))^[i] (0, 0) =
      (i * get_pixel_format_bits RGB8 / 8, i * get_pixel_format_bits RGB8 % 8) :=
  ⟨by decide, by decide, cursor_advance_invariant RGB8 (by decide) 7 0 (by decide)⟩


/-! ## Raster walker (C2, C3) -/

theorem decode_defined (pf : pixel_format) (hpf : supported pf) (data : List uint8_t)
    (off : Nat) (h : off + get_pixel_format_bits pf ≤ 8 * data.length) :
    ∃ c, formatted_to_intermediate pf data off = some c := by
  obtain ⟨h1, h2⟩ := hpf
  have e : ∀ j, j < data.length → ∃ d, data[j]? = some d :=
    fun j hj => ⟨data[j], List.getElem?_eq_getElem hj⟩
  interval_cases pf
  all_goals first
    | (have hn : off + 128 ≤ 8 * data.length := h
       obtain ⟨d0, e0⟩ := e 0 (by omega)
       obtain ⟨d1, e1⟩ := e 1 (by omega)
       obtain ⟨d2, e2⟩ := e 2 (by omega)
       obtain ⟨d3, e3⟩ := e 3 (by omega)
       obtain ⟨d4, e4⟩ := e 4 (by omega)
       obtain ⟨d5, e5⟩ := e 5 (by omega)
       obtain ⟨d6, e6⟩ := e 6 (by omega)
       obtain ⟨d7, e7⟩ := e 7 (by omega)
       obtain ⟨d8, e8⟩ := e 8 (by omega)
       obtain ⟨d9, e9⟩ := e 9 (by omega)
       obtain ⟨d10, e10⟩ := e 10 (by omega)
       obtain ⟨d11, e11⟩ := e 11 (by omega)
       obtain ⟨d12, e12⟩ := e 12 (by omega)
       obtain ⟨d13, e13⟩ := e 13 (by omega)
       obtain ⟨d14, e14⟩ := e 14 (by omega)
       obtain ⟨d15, e15⟩ := e 15 (by omega)
       simp [formatted_to_intermediate, read_float, e0, e1, e2, e3, e4, e5, e6, e7, e8, e9, e10,
         e11, e12, e13, e14, e15])
    | (have hn : off + 64 ≤ 8 * data.length := h
       obtain ⟨d0, e0⟩ := e 0 (by omega)
       obtain ⟨d1, e1⟩ := e 1 (by omega)
       obtain ⟨d2, e2⟩ := e 2 (by omega)
       obtain ⟨d3, e3⟩ := e 3 (by omega)
       obtain ⟨d4, e4⟩ := e 4 (by omega)
       obtain ⟨d5, e5⟩ := e 5 (by omega)
       obtain ⟨d6, e6⟩ := e 6 (by omega)
       obtain ⟨d7, e7⟩ := e 7 (by omega)
       simp [formatted_to_intermediate, e0, e1, e2, e3, e4, e5, e6, e7])
    | (have hn : off + 48 ≤ 8 * data.length := h
       obtain ⟨d0, e0⟩ := e 0 (by omega)
       obtain ⟨d1, e1⟩ := e 1 (by omega)
       obtain ⟨d2, e2⟩ := e 2 (by omega)
       obtain ⟨d3, e3⟩ := e 3 (by omega)
       obtain ⟨d4, e4⟩ := e 4 (by omega)
       obtain ⟨d5, e5⟩ := e 5 (by omega)
       simp [formatted_to_intermediate, e0, e1, e2, e3, e4, e5])
    | (have hn : off + 32 ≤ 8 * data.length := h
       obtain ⟨d0, e0⟩ := e 0 (by omega)
       obtain ⟨d1, e1⟩ := e 1 (by omega)
       obtain ⟨d2, e2⟩ := e 2 (by omega)
       obtain ⟨d3, e3⟩ := e 3 (by omega)
       simp [formatted_to_intermediate, e0, e1, e2, e3])
    | (have hn : off + 24 ≤ 8 * data.length := h
       obtain ⟨d0, e0⟩ := e 0 (by omega)
       obtain ⟨d1, e1⟩ := e 1 (by omega)
       obtain ⟨d2, e2⟩ := e 2 (by omega)
       simp [formatted_to_intermediate, e0, e1, e2])
    | (have hn : off + 16 ≤ 8 * data.length := h
       obtain ⟨d0, e0⟩ := e 0 (by omega)
       obtain ⟨d1, e1⟩ := e 1 (by omega)
       simp [formatted_to_intermediate, e0, e1])
    | (have hn : off + 8 ≤ 8 * data.length := h
       obtain ⟨d0, e0⟩ := e 0 (by omega)
       simp [formatted_to_intermediate, e0])
    | (have hn : off + 4 ≤ 8 * data.length := h
       obtain ⟨d0, e0⟩ := e 0 (by omega)
       simp [formatted_to_intermediate, e0])
    | (have hn : off + 2 ≤ 8 * data.length := h
       obtain ⟨d0, e0⟩ := e 0 (by omega)
       simp [formatted_to_intermediate, e0])
    | (have hn : off + 1 ≤ 8 * data.length := h
       obtain ⟨d0, e0⟩ := e 0 (by omega)
       simp [formatted_to_intermediate, e0])


theorem supported_bits_le (pf : pixel_format) (hpf : supported pf) :
    0 < get_pixel_format_bits pf ∧ get_pixel_format_bits pf ≤ 128 := by
  obtain ⟨h1, h2⟩ := hpf
  interval_cases pf <;> decide

theorem blit_image_loop_spec (w : Int) (pf : pixel_format) (hpf : supported pf)
    (data : List uint8_t) (N : Nat) (hlen : N * get_pixel_format_bits pf ≤ 8 * data.length) :
    ∀ n i, i + n = N →
      ∃ ps, blit_image_loop w pf data (to_uint8 (get_pixel_format_bits pf)) n i
            (i * get_pixel_format_bits pf / 8, i * get_pixel_format_bits pf % 8) = some ps ∧
        ps.length = n ∧
        ∀ j, j < n →
          ∃ c, formatted_to_intermediate pf
                (data.drop ((i + j) * get_pixel_format_bits pf / 8))
                ((i + j) * get_pixel_format_bits pf % 8) = some c ∧
            ps[j]? = some { intermediate := c,
                            x := size_t_to_int ((i + j) % int_to_size_t w),
                            y := size_t_to_int ((i + j) / int_to_size_t w) } := by
  obtain ⟨hb0, hb⟩ := supported_bits_le pf hpf
  have hk : to_uint8 (get_pixel_format_bits pf) = get_pixel_format_bits pf :=
    Nat.mod_eq_of_lt (by omega)
  rw [hk]
  have hdec := decode_defined pf hpf
  generalize get_pixel_format_bits pf = b at hlen hb0 hb hk hdec
  intro n
  induction n with
  | zero =>
    intro i _
    exact ⟨[], rfl, rfl, fun j hj => absurd hj (Nat.not_lt_zero j)⟩
  | succ n ih =>
    intro i hi
    have hmul : (i + 1) * b ≤ N * b := Nat.mul_le_mul_right b (by omega)
    have hexp : (i + 1) * b = i * b + b := by ring
    obtain ⟨c, hc⟩ := hdec (data.drop (i * b / 8)) (i * b % 8) (by
      rw [List.length_drop]; omega)
    have hadv : cursor_advance b (i * b / 8, i * b % 8) =
        ((i + 1) * b / 8, (i + 1) * b % 8) := by
      rw [cursor_advance_exact _ _ _ (by omega), hexp]
      refine Prod.ext ?_ ?_ <;> simp only <;> omega
    obtain ⟨ps, hps, hlenps, hget⟩ := ih (i + 1) (by omega)
    refine ⟨{ intermediate := c, x := size_t_to_int (i % int_to_size_t w),
              y := size_t_to_int (i / int_to_size_t w) } :: ps, ?_, by simp [hlenps], ?_⟩
    · simp [blit_image_loop, hc, hadv, hps]
    · intro j hj
      rcases j with _ | j
      · exact ⟨c, hc, by simp⟩
      · obtain ⟨c1, hc1, hp1⟩ := hget j (by omega)
        have hidx : i + (j + 1) = i + 1 + j := by omega
        refine ⟨c1, ?_, ?_⟩
        · rw [hidx]; exact hc1
        · rw [hidx]; simpa using hp1


theorem int_to_size_t_of_nonneg (x : Int) (h0 : 0 ≤ x) (h1 : x ≤ INT_MAX) :
    int_to_size_t x = x.toNat := by
  unfold int_to_size_t
  unfold INT_MAX at h1
  rw [Int.emod_eq_of_lt h0 (by omega)]

theorem size_t_to_int_small (n : Nat) (h : (n : Int) ≤ INT_MAX) : size_t_to_int n = n := by
  unfold INT_MAX at h
  unfold size_t_to_int
  have h1 : n % 4294967296 = n := Nat.mod_eq_of_lt (by omega)
  rw [h1, if_pos (by omega)]

theorem blit_image_pixels_spec (pf : pixel_format) (hpf : supported pf) (w h : Int)
    (hw : 0 < w) (hh : 0 < h) (hfit : w * h ≤ INT_MAX) (data : List uint8_t)
    (hlen : w * h * (get_pixel_format_bits pf : Int) ≤ 8 * (data.length : Int)) :
    ∃ ps, blit_image_pixels w h pf data = some ps ∧ (ps.length : Int) = w * h ∧
      ∀ i : Nat, (i : Int) < w * h →
        ∃ c, formatted_to_intermediate pf
              (data.drop (i * get_pixel_format_bits pf / 8))
              (i * get_pixel_format_bits pf % 8) = some c ∧
          ps[i]? = some { intermediate := c, x := (i : Int) % w, y := (i : Int) / w } := by
  have hwh : 0 < w * h := mul_pos hw hh
  have hwle : w ≤ w * h := le_mul_of_one_le_right hw.le hh
  have hmul : int_mul w h = some (w * h) := by
    unfold int_mul
    rw [if_pos ⟨by unfold INT_MIN; omega, hfit⟩]
  have hN : ((w * h).toNat : Int) = w * h := Int.toNat_of_nonneg hwh.le
  have hW : (w.toNat : Int) = w := Int.toNat_of_nonneg hw.le
  have hlenN : (w * h).toNat * get_pixel_format_bits pf ≤ 8 * data.length := by
    have : (((w * h).toNat * get_pixel_format_bits pf : Nat) : Int) ≤ ((8 * data.length : Nat) : Int) := by
      push_cast
      rw [hN]
      exact hlen
    exact_mod_cast this
  obtain ⟨ps, hps, hl, hget⟩ :=
    blit_image_loop_spec w pf hpf data (w * h).toNat hlenN (w * h).toNat 0 (by omega)
  refine ⟨ps, ?_, by rw [hl, hN], ?_⟩
  · unfold blit_image_pixels
    simp only [hmul, Option.bind_eq_bind, Option.some_bind]
    rw [int_to_size_t_of_nonneg _ hwh.le hfit]
    simpa using hps
  · intro i hi
    have hiN : i < (w * h).toNat := by omega
    obtain ⟨c, hc, hp⟩ := hget i hiN
    rw [Nat.zero_add] at hc hp
    refine ⟨c, hc, ?_⟩
    rw [hp, int_to_size_t_of_nonneg w hw.le (by omega)]
    have hWpos : 0 < w.toNat := by omega
    have hx : ((i % w.toNat : Nat) : Int) = (i : Int) % w := by
      rw [Int.natCast_mod, hW]
    have hy : ((i / w.toNat : Nat) : Int) = (i : Int) / w := by
      rw [Int.natCast_div, hW]
    have hxle : i % w.toNat < w.toNat := Nat.mod_lt _ hWpos
    have hyle : i / w.toNat ≤ i := Nat.div_le_self _ _
    rw [size_t_to_int_small _ (by omega), size_t_to_int_small _ (by omega), hx, hy]


/-- Calls of `blit_image` when `w*h` fits an `int` and the buffer holds the
image: one clear, then for each pixel index i in order one colour call and one
draw call at column i mod w, row i div w, then one present. -/
theorem blit_image_calls_spec (pf : pixel_format) (hpf : supported pf) (w h : Int)
    (hw : 0 < w) (hh : 0 < h) (hfit : w * h ≤ INT_MAX) (data : List uint8_t)
    (hlen : w * h * (get_pixel_format_bits pf : Int) ≤ 8 * (data.length : Int)) :
    ∃ ps : List blit_pixel, blit_image w h pf data =
        some ([sdl_call.SDL_RenderClear] ++ (ps.map blit_pixel_calls).flatten ++
          [sdl_call.SDL_RenderPresent]) ∧
      (ps.length : Int) = w * h ∧
      ∀ i : Nat, (i : Int) < w * h →
        ∃ p, ps[i]? = some p ∧ p.x = (i : Int) % w ∧ p.y = (i : Int) / w := by
  obtain ⟨ps, hps, hl, hget⟩ := blit_image_pixels_spec pf hpf w h hw hh hfit data hlen
  refine ⟨ps, by simp [blit_image, hps], hl, ?_⟩
  intro i hi
  obtain ⟨c, _, hp⟩ := hget i hi
  exact ⟨_, hp, rfl, rfl⟩

theorem zero_buffer_length (n : Nat) : (zero_buffer n).length = n :=
  List.length_replicate n 0

/-- C2 (counterexample): for the positive sizes w = h = 65534 and a BW8
buffer of exactly w*h bytes the product `w*h` does not fit an `int`, and
`blit_image` decodes no defined sequence of pixels. -/
theorem blit_image_pixels_int_overflow :
    supported BW8 ∧ (0 : Int) < 65534 ∧
    (65534 : Int) * 65534 * (get_pixel_format_bits BW8 : Int) ≤
      8 * ((zero_buffer 4294705156).length : Int) ∧
    blit_image_pixels 65534 65534 BW8 (zero_buffer 4294705156) = none ∧
    ¬ ∃ ps, blit_image_pixels 65534 65534 BW8 (zero_buffer 4294705156) = some ps := by
  have h : blit_image_pixels 65534 65534 BW8 (zero_buffer 4294705156) = none := by
    simp [blit_image_pixels, int_mul, INT_MAX]
  refine ⟨by decide, by decide, ?_, h, ?_⟩
  · rw [zero_buffer_length]
    norm_num [get_pixel_format_bits]
  · rw [h]
    simp

/-- C2 (amended): for a supported format, positive w and h whose product fits
an `int`, and a buffer of at least ceil(w*h*bits/8) bytes, `blit_image`
decodes w*h pixels and the colour of pixel i is the decoder applied to the
buffer at byte (i*bits) div 8 with bit offset (i*bits) mod 8. -/
theorem blit_image_decodes_each_pixel (pf : pixel_format) (hpf : supported pf) (w h : Int)
    (hw : 0 < w) (hh : 0 < h) (hfit : w * h ≤ INT_MAX) (data : List uint8_t)
    (hlen : w * h * (get_pixel_format_bits pf : Int) ≤ 8 * (data.length : Int)) :
    ∃ ps, blit_image_pixels w h pf data = some ps ∧ (ps.length : Int) = w * h ∧
      ∀ i : Nat, (i : Int) < w * h →
        ∃ p, ps[i]? = some p ∧
          formatted_to_intermediate pf (data.drop (i * get_pixel_format_bits pf / 8))
            (i * get_pixel_format_bits pf % 8) = some p.intermediate := by
  obtain ⟨ps, hps, hl, hget⟩ := blit_image_pixels_spec pf hpf w h hw hh hfit data hlen
  refine ⟨ps, hps, hl, ?_⟩
  intro i hi
  obtain ⟨c, hc, hp⟩ := hget i hi
  exact ⟨_, hp, hc⟩

/-- Witness of the amended C2: the 2x1 RGB8 image with bytes 255,0,0,0,255,0
decodes to (1,0,0,1) at (0,0) and (0,1,0,1) at (1,0). -/
theorem blit_image_decodes_each_pixel_witness :
    supported RGB8 ∧ (0 : Int) < 2 ∧ (0 : Int) < 1 ∧ (2 : Int) * 1 ≤ INT_MAX ∧
    (2 : Int) * 1 * (get_pixel_format_bits RGB8 : Int) ≤
      8 * (([255, 0, 0, 0, 255, 0] : List uint8_t).length : Int) ∧
    blit_image_pixels 2 1 RGB8 [255, 0, 0, 0, 255, 0] =
      some [{ intermediate := { r := float.fin 1, g := float.fin 0, b := float.fin 0,
                                a := float.fin 1 }, x := 0, y := 0 },
            { intermediate := { r := float.fin 0, g := float.fin 1, b := float.fin 0,
                                a := float.fin 1 }, x := 1, y := 0 }] ∧
    ∃ ps, blit_image_pixels 2 1 RGB8 [255, 0, 0, 0, 255, 0] = some ps ∧
      (ps.length : Int) = 2 * 1 ∧
      ∀ i : Nat, (i : Int) < 2 * 1 →
        ∃ p, ps[i]? = some p ∧
          formatted_to_intermediate RGB8
            (([255, 0, 0, 0, 255, 0] : List uint8_t).drop (i * get_pixel_format_bits RGB8 / 8))
            (i * get_pixel_format_bits RGB8 % 8) = some p.intermediate :=
  ⟨by decide, by decide, by decide, by decide, by decide,
    by simp [blit_image_pixels, int_mul, INT_MIN, INT_MAX, int_to_size_t, blit_image_loop,
         formatted_to_intermediate, cursor_advance, to_uint8, get_pixel_format_bits,
         size_t_to_int, val_ff],
    blit_image_decodes_each_pixel RGB8 (by decide) 2 1 (by decide) (by decide) (by decide)
      [255, 0, 0, 0, 255, 0] (by decide)⟩

/-- C3 (evaluation at the failing input): for w = h = 65534, both inside the
range the usage text allows, `w*h` overflows `int` and `blit_image` has no
defined sequence of renderer calls, whatever the format and the buffer. -/
theorem blit_image_int_overflow (pf : pixel_format) (data : List uint8_t) :
    int_mul 65534 65534 = none ∧ blit_image 65534 65534 pf data = none := by
  have h : int_mul 65534 65534 = none := by simp [int_mul, INT_MAX]
  exact ⟨h, by simp [blit_image, blit_image_pixels, h]⟩

/-! ## Bytes read by the decoder (C11, C12) -/

theorem decode_unsupported (pf : pixel_format) (h : pf = 0 ∨ 17 ≤ pf) (data : List uint8_t)
    (off : Nat) :
    formatted_to_intermediate pf data off =
      some { r := float.fin 0, g := float.fin 0, b := float.fin 0, a := float.fin 0 } := by
  rcases h with rfl | h
  · rfl
  · obtain ⟨k, rfl⟩ : ∃ k, pf = k + 17 := ⟨pf - 17, (Nat.sub_add_cancel h).symm⟩
    rfl

theorem decode_take (pf : pixel_format) (data : List uint8_t) (off n : Nat)
    (hn : get_pixel_format_bits pf ≤ 8 * n) :
    formatted_to_intermediate pf (data.take n) off = formatted_to_intermediate pf data off := by
  by_cases h16 : pf ≤ 16
  · have e : ∀ j, j < n → (data.take n)[j]? = data[j]? :=
      fun j hj => List.getElem?_take_of_lt hj
    interval_cases pf
    · rw [decode_unsupported 0 (Or.inl rfl), decode_unsupported 0 (Or.inl rfl)]
    · have h : 1 ≤ 8 * n := hn
      simp only [formatted_to_intermediate, e 0 (by omega)]
    · have h : 2 ≤ 8 * n := hn
      simp only [formatted_to_intermediate, e 0 (by omega)]
    · have h : 4 ≤ 8 * n := hn
      simp only [formatted_to_intermediate, e 0 (by omega)]
    · have h : 8 ≤ 8 * n := hn
      simp only [formatted_to_intermediate, e 0 (by omega)]
    · have h : 16 ≤ 8 * n := hn
      simp only [formatted_to_intermediate, e 0 (by omega), e 1 (by omega)]
    · have h : 16 ≤ 8 * n := hn
      simp only [formatted_to_intermediate, e 0 (by omega), e 1 (by omega)]
    · have h : 32 ≤ 8 * n := hn
      simp only [formatted_to_intermediate, e 0 (by omega), e 1 (by omega), e 2 (by omega),
        e 3 (by omega)]
    · have h : 8 ≤ 8 * n := hn
      simp only [formatted_to_intermediate, e 0 (by omega)]
    · have h : 16 ≤ 8 * n := hn
      simp only [formatted_to_intermediate, e 0 (by omega), e 1 (by omega)]
    · have h : 16 ≤ 8 * n := hn
      simp only [formatted_to_intermediate, e 0 (by omega), e 1 (by omega)]
    · have h : 32 ≤ 8 * n := hn
      simp only [formatted_to_intermediate, e 0 (by omega), e 1 (by omega), e 2 (by omega),
        e 3 (by omega)]
    · have h : 24 ≤ 8 * n := hn
      simp only [formatted_to_intermediate, e 0 (by omega), e 1 (by omega), e 2 (by omega)]
    · have h : 48 ≤ 8 * n := hn
      simp only [formatted_to_intermediate, e 0 (by omega), e 1 (by omega), e 2 (by omega),
        e 3 (by omega), e 4 (by omega), e 5 (by omega)]
    · have h : 32 ≤ 8 * n := hn
      simp only [formatted_to_intermediate, e 0 (by omega), e 1 (by omega), e 2 (by omega),
        e 3 (by omega)]
    · have h : 64 ≤ 8 * n := hn
      simp only [formatted_to_intermediate, e 0 (by omega), e 1 (by omega), e 2 (by omega),
        e 3 (by omega), e 4 (by omega), e 5 (by omega), e 6 (by omega), e 7 (by omega)]
    · have h : 128 ≤ 8 * n := hn
      simp only [formatted_to_intermediate, read_float, e 0 (by omega), e 1 (by omega),
        e 2 (by omega), e 3 (by omega), e 4 (by omega), e 5 (by omega), e 6 (by omega),
        e 7 (by omega), e 8 (by omega), e 9 (by omega), e 10 (by omega), e 11 (by omega),
        e 12 (by omega), e 13 (by omega), e 14 (by omega), e 15 (by omega)]
  · have h17 : pf = 0 ∨ 17 ≤ pf := Or.inr (Nat.lt_of_not_le h16)
    rw [decode_unsupported pf h17, decode_unsupported pf h17]

theorem decode_defined_any (pf : pixel_format) (data : List uint8_t) (off : Nat)
    (h : off + get_pixel_format_bits pf ≤ 8 * data.length) :
    ∃ c, formatted_to_intermediate pf data off = some c := by
  by_cases hs : supported pf
  · exact decode_defined pf hs data off h
  · have h0 : pf = 0 ∨ 17 ≤ pf := by
      unfold supported at hs
      by_cases hz : pf = 0
      · exact Or.inl hz
      · right
        by_contra hlt
        exact hs ⟨Nat.pos_of_ne_zero hz, Nat.le_of_lt_succ (Nat.lt_of_not_le hlt)⟩
    exact ⟨_, decode_unsupported pf h0 data off⟩

/-- C11: for every format and every bit offset in [0,8) the decoder's result
depends only on the first ceil((bit_offset + bits) / 8) bytes: two buffers
that agree on them decode alike, cutting the buffer down to them changes
nothing, and a buffer of that many bytes is decoded without a read outside
it. -/
theorem decoder_reads_window (pf : pixel_format) (bit_offset : Nat) (hoff : bit_offset < 8) :
    (∀ d1 d2 : List uint8_t,
      d1.take (spec_ceil_bytes (bit_offset + get_pixel_format_bits pf)) =
        d2.take (spec_ceil_bytes (bit_offset + get_pixel_format_bits pf)) →
      formatted_to_intermediate pf d1 bit_offset = formatted_to_intermediate pf d2 bit_offset) ∧
    (∀ d : List uint8_t,
      formatted_to_intermediate pf
          (d.take (spec_ceil_bytes (bit_offset + get_pixel_format_bits pf))) bit_offset =
        formatted_to_intermediate pf d bit_offset) ∧
    (∀ d : List uint8_t, d.length = spec_ceil_bytes (bit_offset + get_pixel_format_bits pf) →
      ∃ c, formatted_to_intermediate pf d bit_offset = some c) := by
  have hn : get_pixel_format_bits pf ≤
      8 * spec_ceil_bytes (bit_offset + get_pixel_format_bits pf) := by
    unfold spec_ceil_bytes; omega
  refine ⟨?_, ?_, ?_⟩
  · intro d1 d2 h
    rw [← decode_take pf d1 bit_offset _ hn, ← decode_take pf d2 bit_offset _ hn, h]
  · intro d
    exact decode_take pf d bit_offset _ hn
  · intro d hd
    exact decode_defined_any pf d bit_offset (by rw [hd]; unfold spec_ceil_bytes; omega)

/-- Witness of C11: BW2 at bit offset 7 needs two bytes; buffers that agree
on them decode alike. -/
theorem decoder_reads_window_witness :
    7 < 8 ∧
    formatted_to_intermediate BW2 [128, 1, 5] 7 = formatted_to_intermediate BW2 [128, 1, 9, 9] 7 :=
  ⟨by decide, (decoder_reads_window BW2 7 (by decide)).1 [128, 1, 5] [128, 1, 9, 9] (by decide)⟩

theorem blit_image_pixels_take (pf : pixel_format) (hpf : supported pf) (w h : Int)
    (hw : 0 < w) (hh : 0 < h) (hfit : w * h ≤ INT_MAX) (data : List uint8_t)
    (hlen : w * h * (get_pixel_format_bits pf : Int) ≤ 8 * (data.length : Int)) :
    ∃ ps, blit_image_pixels w h pf
          (data.take (spec_ceil_bytes ((w * h).toNat * get_pixel_format_bits pf))) = some ps ∧
      blit_image_pixels w h pf data = some ps := by
  have hwh : 0 < w * h := mul_pos hw hh
  have hN : ((w * h).toNat : Int) = w * h := Int.toNat_of_nonneg hwh.le
  have hlenN : (w * h).toNat * get_pixel_format_bits pf ≤ 8 * data.length := by
    have : (((w * h).toNat * get_pixel_format_bits pf : Nat) : Int) ≤
        ((8 * data.length : Nat) : Int) := by
      push_cast
      rw [hN]
      exact hlen
    exact_mod_cast this
  generalize hL : spec_ceil_bytes ((w * h).toNat * get_pixel_format_bits pf) = L
  have hL8 : (w * h).toNat * get_pixel_format_bits pf ≤ 8 * L := by
    rw [← hL]; unfold spec_ceil_bytes; omega
  have hLlen : L ≤ data.length := by
    rw [← hL]; unfold spec_ceil_bytes; omega
  have hlen1 : w * h * (get_pixel_format_bits pf : Int) ≤ 8 * ((data.take L).length : Int) := by
    rw [List.length_take, Nat.min_eq_left hLlen, ← hN]
    exact_mod_cast hL8
  obtain ⟨ps1, hps1, hl1, hget1⟩ :=
    blit_image_pixels_spec pf hpf w h hw hh hfit (data.take L) hlen1
  obtain ⟨ps2, hps2, hl2, hget2⟩ := blit_image_pixels_spec pf hpf w h hw hh hfit data hlen
  refine ⟨ps1, hps1, ?_⟩
  rw [hps2]
  congr 1
  apply List.ext_getElem?
  intro i
  by_cases hi : (i : Int) < w * h
  · obtain ⟨c1, hc1, hp1⟩ := hget1 i hi
    obtain ⟨c2, hc2, hp2⟩ := hget2 i hi
    have hiN : i < (w * h).toNat := by omega
    have hmul : (i + 1) * get_pixel_format_bits pf ≤
        (w * h).toNat * get_pixel_format_bits pf := Nat.mul_le_mul_right _ hiN
    have hexp : (i + 1) * get_pixel_format_bits pf =
        i * get_pixel_format_bits pf + get_pixel_format_bits pf := by ring
    rw [List.drop_take, decode_take pf _ _ _ (by omega)] at hc1
    rw [hc2] at hc1
    cases hc1
    rw [hp1, hp2]
  · have h1 : ps1.length ≤ i := by omega
    have h2 : ps2.length ≤ i := by omega
    rw [List.getElem?_eq_none h1, List.getElem?_eq_none h2]

/-- C12 (counterexample): for the positive sizes w = h = 65534 and a BW8
buffer of exactly w*h bytes, `w*h` does not fit an `int` and the scan has no
defined reads, neither on the buffer nor on its first ceil(w*h*bits/8) bytes. -/
theorem blit_image_reads_int_overflow :
    supported BW8 ∧ (0 : Int) < 65534 ∧
    (65534 : Int) * 65534 * (get_pixel_format_bits BW8 : Int) ≤
      8 * ((zero_buffer 4294705156).length : Int) ∧
    ¬ ∃ calls,
      blit_image 65534 65534 BW8 ((zero_buffer 4294705156).take
        (spec_ceil_bytes (((65534 : Int) * 65534).toNat * get_pixel_format_bits BW8))) =
          some calls ∧
      blit_image 65534 65534 BW8 (zero_buffer 4294705156) = some calls := by
  have h : blit_image 65534 65534 BW8 (zero_buffer 4294705156) = none := by
    simp [blit_image, blit_image_pixels, int_mul, INT_MAX]
  refine ⟨by decide, by decide, ?_, ?_⟩
  · rw [zero_buffer_length]
    norm_num [get_pixel_format_bits]
  · rintro ⟨calls, _, h2⟩
    rw [h] at h2
    cases h2

/-- C12 (amended): for a supported format, positive w and h whose product fits
an `int`, and a buffer of at least ceil(w*h*bits/8) bytes, the scan of
`blit_image` is defined on the first ceil(w*h*bits/8) bytes alone and makes
the same calls as on the whole buffer: every byte it reads has an index below
ceil(w*h*bits/8). -/
theorem blit_image_reads_inside (pf : pixel_format) (hpf : supported pf) (w h : Int)
    (hw : 0 < w) (hh : 0 < h) (hfit : w * h ≤ INT_MAX) (data : List uint8_t)
    (hlen : w * h * (get_pixel_format_bits pf : Int) ≤ 8 * (data.length : Int)) :
    ∃ calls,
      blit_image w h pf
        (data.take (spec_ceil_bytes ((w * h).toNat * get_pixel_format_bits pf))) = some calls ∧
      blit_image w h pf data = some calls := by
  obtain ⟨ps, h1, h2⟩ := blit_image_pixels_take pf hpf w h hw hh hfit data hlen
  exact ⟨[sdl_call.SDL_RenderClear] ++ (ps.map blit_pixel_calls).flatten ++
      [sdl_call.SDL_RenderPresent], by simp [blit_image, h1], by simp [blit_image, h2]⟩

/-- Witness of the amended C12: a 3x1 BW1 image needs one byte. -/
theorem blit_image_reads_inside_witness :
    supported BW1 ∧ (0 : Int) < 3 ∧ (0 : Int) < 1 ∧ (3 : Int) * 1 ≤ INT_MAX ∧
    (3 : Int) * 1 * (get_pixel_format_bits BW1 : Int) ≤
      8 * (([5, 77, 78] : List uint8_t).length : Int) ∧
    ∃ calls,
      blit_image 3 1 BW1 (([5, 77, 78] : List uint8_t).take
        (spec_ceil_bytes (((3 : Int) * 1).toNat * get_pixel_format_bits BW1))) = some calls ∧
      blit_image 3 1 BW1 [5, 77, 78] = some calls :=
  ⟨by decide, by decide, by decide, by decide, by decide,
    blit_image_reads_inside BW1 (by decide) 3 1 (by decide) (by decide) (by decide)
      [5, 77, 78] (by decide)⟩

/-! ## Channel values (C17, C18) -/

theorem bytes_available (data : List uint8_t) :
    ∀ j, j < data.length → ∃ d, data[j]? = some d :=
  fun j hj => ⟨data[j], List.getElem?_eq_getElem hj⟩

/-- C17: on RG16 the decoder returns b = 0 and a = 0 for every buffer that
holds the pixel and every bit offset, and on every other format without an
alpha sample (BW1, BW2, BW4, BW8, BW16, R8, R16, RG8, RGB8, RGB16) it returns
a = 1. -/
theorem alpha_of_alpha_less_formats (pf : pixel_format) (hpf : pf ∈ spec_alpha_less)
    (data : List uint8_t) (bit_offset : Nat)
    (hlen : get_pixel_format_bits pf ≤ 8 * data.length) :
    ∃ c, formatted_to_intermediate pf data bit_offset = some c ∧
      (if pf = RG16 then c.b = float.fin 0 ∧ c.a = float.fin 0 else c.a = float.fin 1) := by
  have e := bytes_available data
  simp only [spec_alpha_less, List.mem_cons, List.mem_singleton, List.not_mem_nil,
    or_false] at hpf
  rcases hpf with rfl | rfl | rfl | rfl | rfl | rfl | rfl | rfl | rfl | rfl | rfl
  · have h : 1 ≤ 8 * data.length := hlen
    obtain ⟨d0, e0⟩ := e 0 (by omega)
    exact ⟨_, by simp only [formatted_to_intermediate, e0]; rfl, by rw [if_neg (by decide)]⟩
  · have h : 2 ≤ 8 * data.length := hlen
    obtain ⟨d0, e0⟩ := e 0 (by omega)
    exact ⟨_, by simp only [formatted_to_intermediate, e0]; rfl, by rw [if_neg (by decide)]⟩
  · have h : 4 ≤ 8 * data.length := hlen
    obtain ⟨d0, e0⟩ := e 0 (by omega)
    exact ⟨_, by simp only [formatted_to_intermediate, e0]; rfl, by rw [if_neg (by decide)]⟩
  · have h : 8 ≤ 8 * data.length := hlen
    obtain ⟨d0, e0⟩ := e 0 (by omega)
    exact ⟨_, by simp only [formatted_to_intermediate, e0]; rfl, by rw [if_neg (by decide)]⟩
  · have h : 16 ≤ 8 * data.length := hlen
    obtain ⟨d0, e0⟩ := e 0 (by omega)
    obtain ⟨d1, e1⟩ := e 1 (by omega)
    exact ⟨_, by simp only [formatted_to_intermediate, e0, e1]; rfl, by rw [if_neg (by decide)]⟩
  · have h : 8 ≤ 8 * data.length := hlen
    obtain ⟨d0, e0⟩ := e 0 (by omega)
    exact ⟨_, by simp only [formatted_to_intermediate, e0]; rfl, by rw [if_neg (by decide)]⟩
  · have h : 16 ≤ 8 * data.length := hlen
    obtain ⟨d0, e0⟩ := e 0 (by omega)
    obtain ⟨d1, e1⟩ := e 1 (by omega)
    exact ⟨_, by simp only [formatted_to_intermediate, e0, e1]; rfl, by rw [if_neg (by decide)]⟩
  · have h : 16 ≤ 8 * data.length := hlen
    obtain ⟨d0, e0⟩ := e 0 (by omega)
    obtain ⟨d1, e1⟩ := e 1 (by omega)
    exact ⟨_, by simp only [formatted_to_intermediate, e0, e1]; rfl, by rw [if_neg (by decide)]⟩
  · have h : 32 ≤ 8 * data.length := hlen
    obtain ⟨d0, e0⟩ := e 0 (by omega)
    obtain ⟨d1, e1⟩ := e 1 (by omega)
    obtain ⟨d2, e2⟩ := e 2 (by omega)
    obtain ⟨d3, e3⟩ := e 3 (by omega)
    exact ⟨_, by simp only [formatted_to_intermediate, e0, e1, e2, e3]; rfl, by rw [if_pos rfl]; exact ⟨rfl, rfl⟩⟩
  · have h : 24 ≤ 8 * data.length := hlen
    obtain ⟨d0, e0⟩ := e 0 (by omega)
    obtain ⟨d1, e1⟩ := e 1 (by omega)
    obtain ⟨d2, e2⟩ := e 2 (by omega)
    exact ⟨_, by simp only [formatted_to_intermediate, e0, e1, e2]; rfl, by rw [if_neg (by decide)]⟩
  · have h : 48 ≤ 8 * data.length := hlen
    obtain ⟨d0, e0⟩ := e 0 (by omega)
    obtain ⟨d1, e1⟩ := e 1 (by omega)
    obtain ⟨d2, e2⟩ := e 2 (by omega)
    obtain ⟨d3, e3⟩ := e 3 (by omega)
    obtain ⟨d4, e4⟩ := e 4 (by omega)
    obtain ⟨d5, e5⟩ := e 5 (by omega)
    exact ⟨_, by simp only [formatted_to_intermediate, e0, e1, e2, e3, e4, e5]; rfl, by rw [if_neg (by decide)]⟩

/-- Witness of C17 at RG16 and at RGB8. -/
theorem alpha_of_alpha_less_formats_witness :
    RG16 ∈ spec_alpha_less ∧ get_pixel_format_bits RG16 ≤ 8 * ([1, 2, 3, 4] : List uint8_t).length ∧
    ∃ c, formatted_to_intermediate RG16 [1, 2, 3, 4] 0 = some c ∧
      (if RG16 = RG16 then c.b = float.fin 0 ∧ c.a = float.fin 0 else c.a = float.fin 1) :=
  ⟨by decide, by decide, alpha_of_alpha_less_formats RG16 (by decide) [1, 2, 3, 4] 0 (by decide)⟩

theorem unit_div (n m : Nat) (h : n ≤ m) (hm : 0 < m) :
    spec_unit_channel (float.fin ((n : ℚ) / (m : ℚ))) := by
  have hm' : (0 : ℚ) < m := by exact_mod_cast hm
  refine ⟨by positivity, ?_⟩
  rw [div_le_one hm']
  exact_mod_cast h

theorem unit_zero : spec_unit_channel (float.fin 0) := by
  simp [spec_unit_channel]

theorem unit_one : spec_unit_channel (float.fin 1) := by
  simp [spec_unit_channel]

theorem unit_byte (d : uint8_t) : spec_unit_channel (float.fin (((d.val : Nat) : ℚ) / 255)) := by
  have h := unit_div d.val 255 (by have := d.isLt; omega) (by norm_num)
  simpa using h

theorem unit_word (lo hi : uint8_t) :
    spec_unit_channel (float.fin (((lo.val ||| (hi.val <<< 8) : Nat) : ℚ) / 65535)) := by
  rw [le16_eq]
  have h := unit_div (lo.val + 256 * hi.val) 65535
    (by have := lo.isLt; have := hi.isLt; omega) (by norm_num)
  simpa using h

theorem unit_bw1 (d off : Nat) : spec_unit_channel (float.fin ((get_bit d off : Nat) : ℚ)) := by
  rw [get_bit_eq]
  have h := unit_div (d / 2 ^ off % 2) 1 (by omega) (by norm_num)
  simpa using h

theorem unit_bw2 (d off : Nat) :
    spec_unit_channel
      (float.fin (((get_bit d off ||| (get_bit d (off + 1) <<< 1) : Nat) : ℚ) / 3)) := by
  have g0 : get_bit d off = ((d >>> off) / 2 ^ 0) % 2 := get_bit_add d off 0
  rw [g0, get_bit_add d off 1, pack2]
  have h := unit_div (d >>> off % 2 ^ 2) 3 (by omega) (by norm_num)
  simpa using h

theorem unit_bw4 (d off : Nat) :
    spec_unit_channel
      (float.fin (((get_bit d off ||| (get_bit d (off + 1) <<< 1) |||
        (get_bit d (off + 2) <<< 2) ||| (get_bit d (off + 3) <<< 3) : Nat) : ℚ) / 15)) := by
  have g0 : get_bit d off = ((d >>> off) / 2 ^ 0) % 2 := get_bit_add d off 0
  rw [g0, get_bit_add d off 1, get_bit_add d off 2, get_bit_add d off 3, pack4]
  have h := unit_div (d >>> off % 2 ^ 4) 15 (by omega) (by norm_num)
  simpa using h

/-- C18: for every format other than RGBA32F, unrecognised ones included,
every buffer that holds the pixel and every bit offset in [0,8), each of the
four channels the decoder returns is a finite value in the closed interval
[0,1]. -/
theorem channels_in_unit_interval (pf : pixel_format) (hne : pf ≠ RGBA32F)
    (data : List uint8_t) (bit_offset : Nat) (hoff : bit_offset < 8)
    (hlen : get_pixel_format_bits pf ≤ 8 * data.length) :
    ∃ c, formatted_to_intermediate pf data bit_offset = some c ∧
      spec_unit_channel c.r ∧ spec_unit_channel c.g ∧ spec_unit_channel c.b ∧
      spec_unit_channel c.a := by
  have _ := hoff
  have e := bytes_available data
  have zero : ∀ pf0 : pixel_format, pf0 = 0 ∨ 17 ≤ pf0 →
      ∃ c, formatted_to_intermediate pf0 data bit_offset = some c ∧
        spec_unit_channel c.r ∧ spec_unit_channel c.g ∧ spec_unit_channel c.b ∧
        spec_unit_channel c.a :=
    fun pf0 h0 => ⟨{ r := float.fin 0, g := float.fin 0, b := float.fin 0, a := float.fin 0 },
      decode_unsupported pf0 h0 data bit_offset, unit_zero, unit_zero, unit_zero, unit_zero⟩
  by_cases h16 : pf ≤ 16
  · have h3 : pf ≠ 16 := hne
    interval_cases pf
    · exact zero 0 (Or.inl rfl)
    · have h : 1 ≤ 8 * data.length := hlen
      obtain ⟨d0, e0⟩ := e 0 (by omega)
      exact ⟨_, by simp only [formatted_to_intermediate, e0]; rfl,
        unit_bw1 _ _, unit_bw1 _ _, unit_bw1 _ _, unit_one⟩
    · have h : 2 ≤ 8 * data.length := hlen
      obtain ⟨d0, e0⟩ := e 0 (by omega)
      exact ⟨_, by simp only [formatted_to_intermediate, e0]; rfl,
        unit_bw2 _ _, unit_bw2 _ _, unit_bw2 _ _, unit_one⟩
    · have h : 4 ≤ 8 * data.length := hlen
      obtain ⟨d0, e0⟩ := e 0 (by omega)
      exact ⟨_, by simp only [formatted_to_intermediate, e0]; rfl,
        unit_bw4 _ _, unit_bw4 _ _, unit_bw4 _ _, unit_one⟩
    · have h : 8 ≤ 8 * data.length := hlen
      obtain ⟨d0, e0⟩ := e 0 (by omega)
      exact ⟨_, by simp only [formatted_to_intermediate, e0]; rfl,
        unit_byte _, unit_byte _, unit_byte _, unit_one⟩
    · have h : 16 ≤ 8 * data.length := hlen
      obtain ⟨d0, e0⟩ := e 0 (by omega)
      obtain ⟨d1, e1⟩ := e 1 (by omega)
      exact ⟨_, by simp only [formatted_to_intermediate, e0, e1]; rfl,
        unit_word _ _, unit_word _ _, unit_word _ _, unit_one⟩
    · have h : 16 ≤ 8 * data.length := hlen
      obtain ⟨d0, e0⟩ := e 0 (by omega)
      obtain ⟨d1, e1⟩ := e 1 (by omega)
      exact ⟨_, by simp only [formatted_to_intermediate, e0, e1]; rfl,
        unit_byte _, unit_byte _, unit_byte _, unit_byte _⟩
    · have h : 32 ≤ 8 * data.length := hlen
      obtain ⟨d0, e0⟩ := e 0 (by omega)
      obtain ⟨d1, e1⟩ := e 1 (by omega)
      obtain ⟨d2, e2⟩ := e 2 (by omega)
      obtain ⟨d3, e3⟩ := e 3 (by omega)
      exact ⟨_, by simp only [formatted_to_intermediate, e0, e1, e2, e3]; rfl,
        unit_word _ _, unit_word _ _, unit_word _ _, unit_word _ _⟩
    · have h : 8 ≤ 8 * data.length := hlen
      obtain ⟨d0, e0⟩ := e 0 (by omega)
      exact ⟨_, by simp only [formatted_to_intermediate, e0]; rfl,
        unit_byte _, unit_zero, unit_zero, unit_one⟩
    · have h : 16 ≤ 8 * data.length := hlen
      obtain ⟨d0, e0⟩ := e 0 (by omega)
      obtain ⟨d1, e1⟩ := e 1 (by omega)
      exact ⟨_, by simp only [formatted_to_intermediate, e0, e1]; rfl,
        unit_word _ _, unit_zero, unit_zero, unit_one⟩
    · have h : 16 ≤ 8 * data.length := hlen
      obtain ⟨d0, e0⟩ := e 0 (by omega)
      obtain ⟨d1, e1⟩ := e 1 (by omega)
      exact ⟨_, by simp only [formatted_to_intermediate, e0, e1]; rfl,
        unit_byte _, unit_byte _, unit_zero, unit_one⟩
    · have h : 32 ≤ 8 * data.length := hlen
      obtain ⟨d0, e0⟩ := e 0 (by omega)
      obtain ⟨d1, e1⟩ := e 1 (by omega)
      obtain ⟨d2, e2⟩ := e 2 (by omega)
      obtain ⟨d3, e3⟩ := e 3 (by omega)
      exact ⟨_, by simp only [formatted_to_intermediate, e0, e1, e2, e3]; rfl,
        unit_word _ _, unit_word _ _, unit_zero, unit_zero⟩
    · have h : 24 ≤ 8 * data.length := hlen
      obtain ⟨d0, e0⟩ := e 0 (by omega)
      obtain ⟨d1, e1⟩ := e 1 (by omega)
      obtain ⟨d2, e2⟩ := e 2 (by omega)
      exact ⟨_, by simp only [formatted_to_intermediate, e0, e1, e2]; rfl,
        unit_byte _, unit_byte _, unit_byte _, unit_one⟩
    · have h : 48 ≤ 8 * data.length := hlen
      obtain ⟨d0, e0⟩ := e 0 (by omega)
      obtain ⟨d1, e1⟩ := e 1 (by omega)
      obtain ⟨d2, e2⟩ := e 2 (by omega)
      obtain ⟨d3, e3⟩ := e 3 (by omega)
      obtain ⟨d4, e4⟩ := e 4 (by omega)
      obtain ⟨d5, e5⟩ := e 5 (by omega)
      exact ⟨_, by simp only [formatted_to_intermediate, e0, e1, e2, e3, e4, e5]; rfl,
        unit_word _ _, unit_word _ _, unit_word _ _, unit_one⟩
    · have h : 32 ≤ 8 * data.length := hlen
      obtain ⟨d0, e0⟩ := e 0 (by omega)
      obtain ⟨d1, e1⟩ := e 1 (by omega)
      obtain ⟨d2, e2⟩ := e 2 (by omega)
      obtain ⟨d3, e3⟩ := e 3 (by omega)
      exact ⟨_, by simp only [formatted_to_intermediate, e0, e1, e2, e3]; rfl,
        unit_byte _, unit_byte _, unit_byte _, unit_byte _⟩
    · have h : 64 ≤ 8 * data.length := hlen
      obtain ⟨d0, e0⟩ := e 0 (by omega)
      obtain ⟨d1, e1⟩ := e 1 (by omega)
      obtain ⟨d2, e2⟩ := e 2 (by omega)
      obtain ⟨d3, e3⟩ := e 3 (by omega)
      obtain ⟨d4, e4⟩ := e 4 (by omega)
      obtain ⟨d5, e5⟩ := e 5 (by omega)
      obtain ⟨d6, e6⟩ := e 6 (by omega)
      obtain ⟨d7, e7⟩ := e 7 (by omega)
      exact ⟨_, by simp only [formatted_to_intermediate, e0, e1, e2, e3, e4, e5, e6, e7]; rfl,
        unit_word _ _, unit_word _ _, unit_word _ _, unit_word _ _⟩
    · exact absurd rfl h3
  · exact zero pf (Or.inr (Nat.lt_of_not_le h16))

/-- Witness of C18 at BW2 with bit offset 7. -/
theorem channels_in_unit_interval_witness :
    BW2 ≠ RGBA32F ∧ 7 < 8 ∧ get_pixel_format_bits BW2 ≤ 8 * ([255] : List uint8_t).length ∧
    ∃ c, formatted_to_intermediate BW2 [255] 7 = some c ∧
      spec_unit_channel c.r ∧ spec_unit_channel c.g ∧ spec_unit_channel c.b ∧
      spec_unit_channel c.a :=
  ⟨by decide, by decide, by decide,
    channels_in_unit_interval BW2 (by decide) [255] 7 (by decide) (by decide)⟩

/-! ## Pixels inside bytes (C19) and requantisation (C20) -/

theorem sub_byte_decode (pf : pixel_format) (N : Nat)
    (hN : (pf = BW1 ∧ N = 1) ∨ (pf = BW2 ∧ N = 2) ∨ (pf = BW4 ∧ N = 4))
    (d : uint8_t) (rest : List uint8_t) (off : Nat) :
    formatted_to_intermediate pf (d :: rest) off =
      some { r := float.fin ((((d.val >>> off) % 2 ^ N : Nat) : ℚ) / ((2 ^ N - 1 : Nat) : ℚ)),
             g := float.fin ((((d.val >>> off) % 2 ^ N : Nat) : ℚ) / ((2 ^ N - 1 : Nat) : ℚ)),
             b := float.fin ((((d.val >>> off) % 2 ^ N : Nat) : ℚ) / ((2 ^ N - 1 : Nat) : ℚ)),
             a := float.fin 1 } := by
  have g0 : get_bit d.val off = ((d.val >>> off) / 2 ^ 0) % 2 := get_bit_add d.val off 0
  have g1 := get_bit_add d.val off 1
  have g2 := get_bit_add d.val off 2
  have g3 := get_bit_add d.val off 3
  rcases hN with ⟨rfl, rfl⟩ | ⟨rfl, rfl⟩ | ⟨rfl, rfl⟩
  · simp [formatted_to_intermediate, g0]
  · simp [formatted_to_intermediate]
    rw [g0, g1, pack2]
    norm_num
  · simp [formatted_to_intermediate]
    rw [g0, g1, g2, g3, pack4]
    norm_num

theorem stream_bit_in_byte (data : List uint8_t) (p j : Nat) (d : uint8_t)
    (hd : data[p / 8]? = some d) (hj : p % 8 + j < 8) :
    spec_stream_bit data (p + j) = (d.val >>> (p % 8)) / 2 ^ j % 2 := by
  have h1 : (p + j) / 8 = p / 8 := by omega
  have h2 : (p + j) % 8 = p % 8 + j := by omega
  unfold spec_stream_bit
  rw [h1, hd, h2]
  simp only
  rw [Nat.shiftRight_eq_div_pow, Nat.div_div_eq_div_mul, pow_add]

theorem bit_field_in_byte (data : List uint8_t) (p N : Nat) (d : uint8_t)
    (hN : N = 1 ∨ N = 2 ∨ N = 4) (hd : data[p / 8]? = some d) (hfit : p % 8 + N ≤ 8) :
    spec_bit_field data p N = (d.val >>> (p % 8)) % 2 ^ N := by
  have e := fun j (hj : p % 8 + j < 8) => stream_bit_in_byte data p j d hd hj
  unfold spec_bit_field
  generalize d.val >>> (p % 8) = x at e
  rcases hN with rfl | rfl | rfl
  · have e0 := e 0 (by omega)
    simp only [Nat.add_zero] at e0
    simp [List.range_succ, e0]
  · have e0 := e 0 (by omega)
    have e1 := e 1 (by omega)
    simp only [Nat.add_zero] at e0
    simp [List.range_succ, e0, e1]
    omega
  · have e0 := e 0 (by omega)
    have e1 := e 1 (by omega)
    have e2 := e 2 (by omega)
    have e3 := e 3 (by omega)
    simp only [Nat.add_zero] at e0
    simp [List.range_succ, e0, e1, e2, e3]
    omega

theorem decode_ignores_offset (pf : pixel_format) (hpf : supported pf)
    (h8 : 8 ≤ get_pixel_format_bits pf) (data : List uint8_t) (o1 o2 : Nat) :
    formatted_to_intermediate pf data o1 = formatted_to_intermediate pf data o2 := by
  obtain ⟨h1, h2⟩ := hpf
  interval_cases pf
  · exact absurd h8 (by decide)
  · exact absurd h8 (by decide)
  · exact absurd h8 (by decide)
  all_goals simp only [formatted_to_intermediate]

theorem sub_byte_format_of_bits (pf : pixel_format) (hpf : supported pf) (N : Nat)
    (hN : N = 1 ∨ N = 2 ∨ N = 4) (hs : N = get_pixel_format_bits pf) :
    (pf = BW1 ∧ N = 1) ∨ (pf = BW2 ∧ N = 2) ∨ (pf = BW4 ∧ N = 4) := by
  obtain ⟨h1, h2⟩ := hpf
  interval_cases pf <;> rcases hN with rfl | rfl | rfl <;>
    first
      | exact Or.inl ⟨rfl, rfl⟩
      | exact Or.inr (Or.inl ⟨rfl, rfl⟩)
      | exact Or.inr (Or.inr ⟨rfl, rfl⟩)
      | exact absurd hs (by decide)

/-- C19: in a scan with a supported format of s bits, the cursor handed to
the decoder at pixel i has bit offset 0 when s is a multiple of 8, where the
decoder's result does not depend on the bit offset at all; when s is 1, 2 or
4 the bit offset is a multiple of s with bit_offset + s at most 8, the
pixel's first and last bit lie in the same byte, and the decoder (which
reads data[0] only) returns the value of the pixel's s bits of the buffer's
bit stream divided by 2^s - 1. -/
theorem blit_offsets_inside_bytes (pf : pixel_format) (hpf : supported pf) (s : Nat)
    (hs : s = get_pixel_format_bits pf) (i byte off : Nat)
    (hc : (cursor_advance (to_uint8 s))^[i] (0, 0) = (byte, off)) :
    (s % 8 = 0 → off = 0 ∧
      ∀ (data : List uint8_t) (o : Nat),
        formatted_to_intermediate pf data o = formatted_to_intermediate pf data off) ∧
    (s = 1 ∨ s = 2 ∨ s = 4 →
      off % s = 0 ∧ off + s ≤ 8 ∧ (i * s) / 8 = (i * s + s - 1) / 8 ∧
      ∀ data : List uint8_t, (i + 1) * s ≤ 8 * data.length →
        formatted_to_intermediate pf (data.drop byte) off =
          some { r := float.fin ((spec_bit_field data (i * s) s : ℚ) / ((2 ^ s - 1 : Nat) : ℚ)),
                 g := float.fin ((spec_bit_field data (i * s) s : ℚ) / ((2 ^ s - 1 : Nat) : ℚ)),
                 b := float.fin ((spec_bit_field data (i * s) s : ℚ) / ((2 ^ s - 1 : Nat) : ℚ)),
                 a := float.fin 1 }) := by
  obtain ⟨hb0, hb⟩ := supported_bits_le pf hpf
  rw [← hs] at hb0 hb
  have hk : to_uint8 s = s := Nat.mod_eq_of_lt (by omega)
  rw [hk, cursor_advance_iterate s (by omega) 0 0 (by decide) i] at hc
  simp only [Nat.zero_add, Prod.mk.injEq] at hc
  obtain ⟨hbyte, hoff⟩ := hc
  have hcomm : s * i = i * s := Nat.mul_comm s i
  rw [hcomm] at hbyte hoff
  refine ⟨?_, ?_⟩
  · intro h8
    have h0 : off = 0 := by
      rw [← hoff, Nat.mul_mod, h8]
      simp
    refine ⟨h0, fun data o => ?_⟩
    exact decode_ignores_offset pf hpf (by rw [← hs]; omega) data o off
  · intro hN
    have hpfN := sub_byte_format_of_bits pf hpf s hN hs
    have hmod : off % s = 0 ∧ off + s ≤ 8 ∧ (i * s) / 8 = (i * s + s - 1) / 8 := by
      rcases hN with rfl | rfl | rfl <;> omega
    refine ⟨hmod.1, hmod.2.1, hmod.2.2, ?_⟩
    intro data hlen
    have hexp : (i + 1) * s = i * s + s := by ring
    have hlt : byte < data.length := by omega
    have hd : data[(i * s) / 8]? = some data[byte] := by
      rw [hbyte]
      exact List.getElem?_eq_getElem hlt
    rw [List.drop_eq_getElem_cons hlt, sub_byte_decode pf s hpfN,
      bit_field_in_byte data (i * s) s data[byte] hN hd (by rw [hoff]; exact hmod.2.1), hoff]

/-- Witness of C19 at BW2, pixel 5 (byte 1, bit offset 2). -/
theorem blit_offsets_inside_bytes_witness :
    supported BW2 ∧ 2 = get_pixel_format_bits BW2 ∧
    (cursor_advance (to_uint8 2))^[5] (0, 0) = (1, 2) ∧
    ((2 % 8 = 0 → 2 = 0 ∧
      ∀ (data : List uint8_t) (o : Nat),
        formatted_to_intermediate BW2 data o = formatted_to_intermediate BW2 data 2) ∧
    (2 = 1 ∨ 2 = 2 ∨ 2 = 4 →
      2 % 2 = 0 ∧ 2 + 2 ≤ 8 ∧ (5 * 2) / 8 = (5 * 2 + 2 - 1) / 8 ∧
      ∀ data : List uint8_t, (5 + 1) * 2 ≤ 8 * data.length →
        formatted_to_intermediate BW2 (data.drop 1) 2 =
          some { r := float.fin ((spec_bit_field data (5 * 2) 2 : ℚ) / ((2 ^ 2 - 1 : Nat) : ℚ)),
                 g := float.fin ((spec_bit_field data (5 * 2) 2 : ℚ) / ((2 ^ 2 - 1 : Nat) : ℚ)),
                 b := float.fin ((spec_bit_field data (5 * 2) 2 : ℚ) / ((2 ^ 2 - 1 : Nat) : ℚ)),
                 a := float.fin 1 })) :=
  ⟨by decide, by decide, by decide,
    blit_offsets_inside_bytes BW2 (by decide) 2 (by decide) 5 1 2 (by decide)⟩

theorem channel_to_Uint8_exact (q : ℚ) (v : Nat) (hv : v ≤ 255) (hq : q * 255 = v) :
    channel_to_Uint8 (float.fin q) = some v := by
  have hval : q * 255 + 1 / 2 = (v : ℚ) + 1 / 2 := by rw [hq]
  have hnum : 0 ≤ ((v : ℚ) + 1 / 2).num := Rat.num_nonneg.mpr (by positivity)
  have hfloor : ⌊(v : ℚ) + 1 / 2⌋ = (v : Int) := by
    rw [Int.floor_eq_iff]
    constructor
    · push_cast; linarith
    · push_cast; linarith
  have ht : Int.tdiv ((v : ℚ) + 1 / 2).num (((v : ℚ) + 1 / 2).den : Int) = (v : Int) := by
    rw [Int.tdiv_eq_ediv hnum (by positivity), ← Rat.floor_def, hfloor]
  unfold channel_to_Uint8
  simp only [hval, ht]
  rw [if_pos ⟨by positivity, by exact_mod_cast hv⟩]
  simp

theorem channel_to_Uint8_byte (v : uint8_t) :
    channel_to_Uint8 (float.fin (((v.val : Nat) : ℚ) / 255)) = some v.val :=
  channel_to_Uint8_exact _ v.val (by have := v.isLt; omega) (by field_simp)

theorem channel_to_Uint8_one : channel_to_Uint8 (float.fin 1) = some 255 :=
  channel_to_Uint8_exact 1 255 (by decide) (by norm_num)

theorem channel_to_Uint8_zero : channel_to_Uint8 (float.fin 0) = some 0 :=
  channel_to_Uint8_exact 0 0 (by decide) (by norm_num)

/-- C20: for every byte v the value handed to the renderer for a channel
stored as v, the truncation of (v/255)*255 + 0.5, is v again; so for each
8-bit format (BW8, BWA8, R8, RG8, RGB8, RGBA8) the colour call that
`blit_image` makes for a pixel carries the stored bytes themselves (and 255
for a constant alpha of 1, 0 for a constant 0). -/
theorem requantise_8bit_identity (v b0 b1 b2 b3 : uint8_t) (rest : List uint8_t)
    (bit_offset : Nat) (x y : Int) :
    channel_to_Uint8 (spec_sample8 v) = some v.val ∧
    (formatted_to_intermediate BW8 (b0 :: rest) bit_offset).map
        (fun c => blit_pixel_calls { intermediate := c, x := x, y := y }) =
      some [sdl_call.SDL_SetRenderDrawColor (some b0.val) (some b0.val) (some b0.val) (some 255),
            sdl_call.SDL_RenderDrawPoint x y] ∧
    (formatted_to_intermediate BWA8 (b0 :: b1 :: rest) bit_offset).map
        (fun c => blit_pixel_calls { intermediate := c, x := x, y := y }) =
      some [sdl_call.SDL_SetRenderDrawColor (some b0.val) (some b0.val) (some b0.val)
              (some b1.val),
            sdl_call.SDL_RenderDrawPoint x y] ∧
    (formatted_to_intermediate R8 (b0 :: rest) bit_offset).map
        (fun c => blit_pixel_calls { intermediate := c, x := x, y := y }) =
      some [sdl_call.SDL_SetRenderDrawColor (some b0.val) (some 0) (some 0) (some 255),
            sdl_call.SDL_RenderDrawPoint x y] ∧
    (formatted_to_intermediate RG8 (b0 :: b1 :: rest) bit_offset).map
        (fun c => blit_pixel_calls { intermediate := c, x := x, y := y }) =
      some [sdl_call.SDL_SetRenderDrawColor (some b0.val) (some b1.val) (some 0) (some 255),
            sdl_call.SDL_RenderDrawPoint x y] ∧
    (formatted_to_intermediate RGB8 (b0 :: b1 :: b2 :: rest) bit_offset).map
        (fun c => blit_pixel_calls { intermediate := c, x := x, y := y }) =
      some [sdl_call.SDL_SetRenderDrawColor (some b0.val) (some b1.val) (some b2.val) (some 255),
            sdl_call.SDL_RenderDrawPoint x y] ∧
    (formatted_to_intermediate RGBA8 (b0 :: b1 :: b2 :: b3 :: rest) bit_offset).map
        (fun c => blit_pixel_calls { intermediate := c, x := x, y := y }) =
      some [sdl_call.SDL_SetRenderDrawColor (some b0.val) (some b1.val) (some b2.val)
              (some b3.val),
            sdl_call.SDL_RenderDrawPoint x y] := by
  refine ⟨channel_to_Uint8_byte v, ?_, ?_, ?_, ?_, ?_, ?_⟩ <;>
    simp [formatted_to_intermediate, blit_pixel_calls, channel_to_Uint8_byte,
      channel_to_Uint8_one, channel_to_Uint8_zero]

/-! ## Buffer size and file load (C13, C16) -/

/-- C13 (evaluation at the failing input): for a 1x1 (or 3x1) BW1 image `main`
computes `image_bytes = 0`, fewer than the ceil(1*1*1/8) = 1 byte the scan
reads; `blit_image` on the block of 0 bytes reads outside it, and so does a
whole run of `main` on such arguments. -/
theorem image_bytes_rounds_down :
    image_bytes 1 1 BW1 = some 0 ∧ image_bytes 3 1 BW1 = some 0 ∧
    spec_ceil_bytes (1 * 1 * get_pixel_format_bits BW1) = 1 ∧
    blit_image 1 1 BW1 [] = none ∧
    main ["displayraw".toList, "-w=1".toList, "-h=1".toList, "-p=BW1".toList, "-f=x".toList]
      (fun _ => some [1]) (fun n => List.replicate n 0) = main_outcome.display none := by
  refine ⟨by decide, by decide, by decide, by decide, by decide⟩

theorem load_loop_spec (n : Int) :
    ∀ (file : List uint8_t) (i : Nat) (buf : List uint8_t), (buf.length : Int) = n →
      ∃ out, load_loop n file (i : Int) buf = some out ∧ out.length = buf.length ∧
        ∀ j, out[j]? =
          if i ≤ j ∧ j < i + file.length ∧ j < buf.length then file[j - i]? else buf[j]? := by
  intro file
  induction file with
  | nil =>
    intro i buf _
    refine ⟨buf, rfl, rfl, fun j => ?_⟩
    rw [if_neg]
    simp only [List.length_nil]
    omega
  | cons c file ih =>
    intro i buf hbuf
    by_cases hi : (i : Int) < n
    · have hilt : i < buf.length := by omega
      have hst : store_byte buf (i : Int) c = some (buf.set i c) := by
        unfold store_byte
        rw [if_pos ⟨by omega, by omega⟩]
        simp
      obtain ⟨out, hout, hlen, hget⟩ := ih (i + 1) (buf.set i c) (by simpa using hbuf)
      refine ⟨out, ?_, by simpa using hlen, ?_⟩
      · simp only [load_loop, if_pos hi, hst, Option.bind_eq_bind, Option.some_bind]
        exact_mod_cast hout
      · intro j
        rw [hget j]
        simp only [List.length_set, List.length_cons]
        by_cases hji : j = i
        · subst hji
          have h1 : ¬ (j + 1 ≤ j ∧ j < j + 1 + file.length ∧ j < buf.length) := by omega
          have h2 : j ≤ j ∧ j < j + (file.length + 1) ∧ j < buf.length := by omega
          rw [if_neg h1, if_pos h2]
          simp [List.getElem?_set, hilt]
        · by_cases hc : i + 1 ≤ j ∧ j < i + 1 + file.length ∧ j < buf.length
          · have h2 : i ≤ j ∧ j < i + (file.length + 1) ∧ j < buf.length := by omega
            rw [if_pos hc, if_pos h2]
            obtain ⟨k, hk⟩ : ∃ k, j - i = k + 1 := ⟨j - i - 1, by omega⟩
            have hk2 : j - (i + 1) = k := by omega
            rw [hk, hk2]
            simp
          · have h2 : ¬ (i ≤ j ∧ j < i + (file.length + 1) ∧ j < buf.length) := by omega
            rw [if_neg hc, if_neg h2]
            simp [List.getElem?_set, Ne.symm hji]
    · refine ⟨buf, by simp only [load_loop, if_neg hi], rfl, ?_⟩
      intro j
      have h2 : ¬ (i ≤ j ∧ j < i + (c :: file).length ∧ j < buf.length) := by omega
      rw [if_neg h2]

/-- C16 (amended): for every file and every allocated block of `image_bytes`
bytes the load loop of `main` makes no store outside the block; afterwards the
block holds the file's bytes at the indices below the file length (and below
`image_bytes`), and any byte from the file length on is what the allocation
held. -/
theorem load_loop_result (image_bytes : Int) (file image_data : List uint8_t)
    (hblock : (image_data.length : Int) = image_bytes) :
    ∃ out, load_loop image_bytes file 0 image_data = some out ∧
      out.length = image_data.length ∧
      (∀ j, j < file.length → j < image_data.length → out[j]? = file[j]?) ∧
      (∀ j, file.length ≤ j → out[j]? = image_data[j]?) := by
  obtain ⟨out, hout, hlen, hget⟩ := load_loop_spec image_bytes file 0 image_data hblock
  refine ⟨out, by simpa using hout, hlen, ?_, ?_⟩
  · intro j h1 h2
    rw [hget j, if_pos ⟨by omega, by omega, h2⟩]
    simp
  · intro j h1
    rw [hget j, if_neg (by omega)]

/-- Witness of the amended C16: a two-byte file loaded into a three-byte block. -/
theorem load_loop_result_witness :
    ((([9, 9, 9] : List uint8_t).length : Int) = 3) ∧
    load_loop 3 [1, 2] 0 [9, 9, 9] = some [1, 2, 9] ∧
    ∃ out, load_loop 3 [1, 2] 0 [9, 9, 9] = some out ∧
      out.length = ([9, 9, 9] : List uint8_t).length ∧
      (∀ j, j < ([1, 2] : List uint8_t).length → j < ([9, 9, 9] : List uint8_t).length →
        out[j]? = ([1, 2] : List uint8_t)[j]?) ∧
      (∀ j, ([1, 2] : List uint8_t).length ≤ j → out[j]? = ([9, 9, 9] : List uint8_t)[j]?) :=
  ⟨by decide, by decide, load_loop_result 3 [1, 2] [9, 9, 9] (by decide)⟩

theorem blit_image_white_pixel :
    blit_image 1 1 BW8 [255] = some [sdl_call.SDL_RenderClear,
      sdl_call.SDL_SetRenderDrawColor (some 255) (some 255) (some 255) (some 255),
      sdl_call.SDL_RenderDrawPoint 0 0, sdl_call.SDL_RenderPresent] := by
  have h := channel_to_Uint8_byte 255
  simp [blit_image, blit_image_pixels, int_mul, INT_MIN, INT_MAX, int_to_size_t, blit_image_loop,
    formatted_to_intermediate, cursor_advance, to_uint8, get_pixel_format_bits, size_t_to_int,
    blit_pixel_calls, channel_to_Uint8_one, h]
  rfl

/-- C16 (counterexample): with an empty file and a one-byte block that `malloc`
returned holding 7, the load loop leaves the 7 at index 0; nothing zero-fills
the bytes past the end of the file. A run of `main` on a 1x1 BW8 image with an
empty file and a block holding 255 draws the pixel with value 255, not 0. -/
theorem load_loop_keeps_garbage :
    (([] : List uint8_t).length : Int) < 1 ∧
    load_loop 1 [] 0 [7] = some [7] ∧
    (¬ ∃ out : List uint8_t, load_loop 1 [] 0 [7] = some out ∧ out[0]? = some 0) ∧
    main ["displayraw".toList, "-w=1".toList, "-h=1".toList, "-p=BW8".toList, "-f=x".toList]
        (fun _ => some []) (fun n => List.replicate n 255) =
      main_outcome.display (some [sdl_call.SDL_RenderClear,
        sdl_call.SDL_SetRenderDrawColor (some 255) (some 255) (some 255) (some 255),
        sdl_call.SDL_RenderDrawPoint 0 0, sdl_call.SDL_RenderPresent]) := by
  refine ⟨by decide, rfl, ?_, ?_⟩
  · rintro ⟨out, h, h0⟩
    cases h
    revert h0
    decide
  · have hm : main ["displayraw".toList, "-w=1".toList, "-h=1".toList, "-p=BW8".toList,
        "-f=x".toList] (fun _ => some []) (fun n => List.replicate n 255) =
        main_outcome.display (blit_image 1 1 BW8 [255]) := rfl
    rw [hm, blit_image_white_pixel]

/-! ## Command line (C14, C15) -/

theorem parse_pixel_format_other (st : parse_vars) (name : c_string) :
    (parse_pixel_format st name).w = st.w ∧ (parse_pixel_format st name).h = st.h ∧
    (parse_pixel_format st name).filename = st.filename ∧
    (parse_pixel_format st name).width_set = st.width_set ∧
    (parse_pixel_format st name).height_set = st.height_set ∧
    (parse_pixel_format st name).filename_set = st.filename_set ∧
    (parse_pixel_format st name).parse_fail = st.parse_fail := by
  unfold parse_pixel_format
  by_cases h1 : name = "BW1".toList
  · rw [if_pos h1]
    exact ⟨rfl, rfl, rfl, rfl, rfl, rfl, rfl⟩
  rw [if_neg h1]
  by_cases h2 : name = "BW2".toList
  · rw [if_pos h2]
    exact ⟨rfl, rfl, rfl, rfl, rfl, rfl, rfl⟩
  rw [if_neg h2]
  by_cases h3 : name = "BW4".toList
  · rw [if_pos h3]
    exact ⟨rfl, rfl, rfl, rfl, rfl, rfl, rfl⟩
  rw [if_neg h3]
  by_cases h4 : name = "BW8".toList
  · rw [if_pos h4]
    exact ⟨rfl, rfl, rfl, rfl, rfl, rfl, rfl⟩
  rw [if_neg h4]
  by_cases h5 : name = "BW16".toList
  · rw [if_pos h5]
    exact ⟨rfl, rfl, rfl, rfl, rfl, rfl, rfl⟩
  rw [if_neg h5]
  by_cases h6 : name = "BWA8".toList
  · rw [if_pos h6]
    exact ⟨rfl, rfl, rfl, rfl, rfl, rfl, rfl⟩
  rw [if_neg h6]
  by_cases h7 : name = "BWA16".toList
  · rw [if_pos h7]
    exact ⟨rfl, rfl, rfl, rfl, rfl, rfl, rfl⟩
  rw [if_neg h7]
  by_cases h8 : name = "R8".toList
  · rw [if_pos h8]
    exact ⟨rfl, rfl, rfl, rfl, rfl, rfl, rfl⟩
  rw [if_neg h8]
  by_cases h9 : name = "R16".toList
  · rw [if_pos h9]
    exact ⟨rfl, rfl, rfl, rfl, rfl, rfl, rfl⟩
  rw [if_neg h9]
  by_cases h10 : name = "RG8".toList
  · rw [if_pos h10]
    exact ⟨rfl, rfl, rfl, rfl, rfl, rfl, rfl⟩
  rw [if_neg h10]
  by_cases h11 : name = "RG16".toList
  · rw [if_pos h11]
    exact ⟨rfl, rfl, rfl, rfl, rfl, rfl, rfl⟩
  rw [if_neg h11]
  by_cases h12 : name = "RGB8".toList
  · rw [if_pos h12]
    exact ⟨rfl, rfl, rfl, rfl, rfl, rfl, rfl⟩
  rw [if_neg h12]
  by_cases h13 : name = "RGB16".toList
  · rw [if_pos h13]
    exact ⟨rfl, rfl, rfl, rfl, rfl, rfl, rfl⟩
  rw [if_neg h13]
  by_cases h14 : name = "RGBA8".toList
  · rw [if_pos h14]
    exact ⟨rfl, rfl, rfl, rfl, rfl, rfl, rfl⟩
  rw [if_neg h14]
  by_cases h15 : name = "RGBA16".toList
  · rw [if_pos h15]
    exact ⟨rfl, rfl, rfl, rfl, rfl, rfl, rfl⟩
  rw [if_neg h15]
  by_cases h16 : name = "RGBA32F".toList
  · rw [if_pos h16]
    exact ⟨rfl, rfl, rfl, rfl, rfl, rfl, rfl⟩
  rw [if_neg h16]
  exact ⟨rfl, rfl, rfl, rfl, rfl, rfl, rfl⟩

theorem parse_pixel_format_bad (st : parse_vars) (name : c_string)
    (h : (spec_format_names.map Prod.fst).contains name = false) :
    parse_pixel_format st name = { st with pf_set := false } := by
  have h1 : ¬ name = "BW1".toList := fun e => by
    rw [e] at h
    revert h
    decide
  have h2 : ¬ name = "BW2".toList := fun e => by
    rw [e] at h
    revert h
    decide
  have h3 : ¬ name = "BW4".toList := fun e => by
    rw [e] at h
    revert h
    decide
  have h4 : ¬ name = "BW8".toList := fun e => by
    rw [e] at h
    revert h
    decide
  have h5 : ¬ name = "BW16".toList := fun e => by
    rw [e] at h
    revert h
    decide
  have h6 : ¬ name = "BWA8".toList := fun e => by
    rw [e] at h
    revert h
    decide
  have h7 : ¬ name = "BWA16".toList := fun e => by
    rw [e] at h
    revert h
    decide
  have h8 : ¬ name = "R8".toList := fun e => by
    rw [e] at h
    revert h
    decide
  have h9 : ¬ name = "R16".toList := fun e => by
    rw [e] at h
    revert h
    decide
  have h10 : ¬ name = "RG8".toList := fun e => by
    rw [e] at h
    revert h
    decide
  have h11 : ¬ name = "RG16".toList := fun e => by
    rw [e] at h
    revert h
    decide
  have h12 : ¬ name = "RGB8".toList := fun e => by
    rw [e] at h
    revert h
    decide
  have h13 : ¬ name = "RGB16".toList := fun e => by
    rw [e] at h
    revert h
    decide
  have h14 : ¬ name = "RGBA8".toList := fun e => by
    rw [e] at h
    revert h
    decide
  have h15 : ¬ name = "RGBA16".toList := fun e => by
    rw [e] at h
    revert h
    decide
  have h16 : ¬ name = "RGBA32F".toList := fun e => by
    rw [e] at h
    revert h
    decide
  unfold parse_pixel_format
  rw [if_neg h1, if_neg h2, if_neg h3, if_neg h4, if_neg h5, if_neg h6, if_neg h7, if_neg h8, if_neg h9, if_neg h10, if_neg h11, if_neg h12, if_neg h13, if_neg h14, if_neg h15, if_neg h16]

theorem parse_pixel_format_good (st : parse_vars) (name : c_string) (p : pixel_format)
    (h : (name, p) ∈ spec_format_names) :
    parse_pixel_format st name = { st with pf_set := true, pf := p } := by
  unfold spec_format_names at h
  fin_cases h <;> rfl

theorem parse_arg_keeps (st : parse_vars) (arg : c_string) :
    (parse_arg st arg).parse_fail = st.parse_fail ∧
    (arg[1]? ≠ some 'w' → (parse_arg st arg).width_set = st.width_set) ∧
    (arg[1]? ≠ some 'h' → (parse_arg st arg).height_set = st.height_set) ∧
    (arg[1]? ≠ some 'p' → (parse_arg st arg).pf_set = st.pf_set) ∧
    (arg[1]? ≠ some 'f' → (parse_arg st arg).filename_set = st.filename_set) := by
  have hp := parse_pixel_format_other st (arg.drop 3)
  unfold parse_arg
  split
  · next h => exact ⟨rfl, fun hn => absurd h hn, fun _ => rfl, fun _ => rfl, fun _ => rfl⟩
  · next h => exact ⟨rfl, fun _ => rfl, fun hn => absurd h hn, fun _ => rfl, fun _ => rfl⟩
  · next h => exact ⟨rfl, fun _ => rfl, fun _ => rfl, fun _ => rfl, fun hn => absurd h hn⟩
  · next h =>
    exact ⟨hp.2.2.2.2.2.2, fun _ => hp.2.2.2.1, fun _ => hp.2.2.2.2.1, fun hn => absurd h hn,
      fun _ => hp.2.2.2.2.2.1⟩
  · exact ⟨rfl, fun _ => rfl, fun _ => rfl, fun _ => rfl, fun _ => rfl⟩

theorem parse_arg_flags (st : parse_vars) (arg : c_string) :
    parse_flags_set (parse_arg st arg) ≤
      parse_flags_set st + (if spec_bad_format_arg arg then 0 else 1) := by
  have hp := parse_pixel_format_other st (arg.drop 3)
  have hb : ∀ b : Bool, b.toNat ≤ 1 := fun b => by cases b <;> decide
  have h1 := hb st.width_set
  have h2 := hb st.height_set
  have h3 := hb st.pf_set
  have h4 := hb st.filename_set
  have h5 := hb (parse_pixel_format st (arg.drop 3)).pf_set
  by_cases hbad : spec_bad_format_arg arg = true
  · rw [if_pos hbad]
    unfold spec_bad_format_arg at hbad
    simp only [Bool.and_eq_true, decide_eq_true_eq, Bool.not_eq_true'] at hbad
    have hpa : parse_arg st arg = { st with pf_set := false } := by
      unfold parse_arg
      rw [hbad.1]
      exact parse_pixel_format_bad st _ hbad.2
    rw [hpa]
    unfold parse_flags_set
    simp only [Bool.toNat_false]
    omega
  · rw [if_neg hbad]
    unfold parse_arg
    split
    · unfold parse_flags_set
      simp only [Bool.toNat_true]
      omega
    · unfold parse_flags_set
      simp only [Bool.toNat_true]
      omega
    · unfold parse_flags_set
      simp only [Bool.toNat_true]
      omega
    · unfold parse_flags_set
      rw [hp.2.2.2.1, hp.2.2.2.2.1, hp.2.2.2.2.2.1]
      omega
    · omega

theorem parse_args_loop_fail (l : List c_string) :
    ∀ st : parse_vars, (st.parse_fail = true ∨ ∃ arg ∈ l, spec_ill_shaped arg = true) →
      (parse_args_loop l st).parse_fail = true := by
  induction l with
  | nil =>
    intro st h
    rcases h with h | ⟨arg, hmem, _⟩
    · exact h
    · cases hmem
  | cons a l ih =>
    intro st h
    unfold parse_args_loop
    by_cases hc : a.head? ≠ some '-' ∨ a.length < 4
    · rw [if_pos hc]
    · rw [if_neg hc]
      apply ih
      rcases h with h | ⟨arg, hmem, hill⟩
      · exact Or.inl ((parse_arg_keeps st a).1.trans h)
      · rcases List.mem_cons.mp hmem with rfl | hmem
        · exfalso
          apply hc
          simpa [spec_ill_shaped] using hill
        · exact Or.inr ⟨arg, hmem, hill⟩

theorem parse_args_loop_flags (l : List c_string) :
    ∀ st : parse_vars,
      parse_flags_set (parse_args_loop l st) ≤
        parse_flags_set st + l.countP (fun a => !spec_bad_format_arg a) := by
  induction l with
  | nil => intro st; exact Nat.le_refl _
  | cons a l ih =>
    intro st
    unfold parse_args_loop
    by_cases hc : a.head? ≠ some '-' ∨ a.length < 4
    · rw [if_pos hc]
      exact Nat.le_add_right _ _
    · rw [if_neg hc, List.countP_cons]
      have h1 := ih (parse_arg st a)
      have h2 := parse_arg_flags st a
      cases hb : spec_bad_format_arg a <;> simp [hb] at h2 ⊢ <;> omega

theorem parse_args_loop_keeps (l : List c_string) :
    ∀ st : parse_vars,
      ((∀ arg ∈ l, arg[1]? ≠ some 'w') → (parse_args_loop l st).width_set = st.width_set) ∧
      ((∀ arg ∈ l, arg[1]? ≠ some 'h') → (parse_args_loop l st).height_set = st.height_set) ∧
      ((∀ arg ∈ l, arg[1]? ≠ some 'p') → (parse_args_loop l st).pf_set = st.pf_set) ∧
      ((∀ arg ∈ l, arg[1]? ≠ some 'f') →
        (parse_args_loop l st).filename_set = st.filename_set) := by
  induction l with
  | nil => intro st; exact ⟨fun _ => rfl, fun _ => rfl, fun _ => rfl, fun _ => rfl⟩
  | cons a l ih =>
    intro st
    unfold parse_args_loop
    by_cases hc : a.head? ≠ some '-' ∨ a.length < 4
    · rw [if_pos hc]
      exact ⟨fun _ => rfl, fun _ => rfl, fun _ => rfl, fun _ => rfl⟩
    · rw [if_neg hc]
      obtain ⟨i1, i2, i3, i4⟩ := ih (parse_arg st a)
      obtain ⟨_, k1, k2, k3, k4⟩ := parse_arg_keeps st a
      refine ⟨fun h => ?_, fun h => ?_, fun h => ?_, fun h => ?_⟩
      · rw [i1 (fun arg hm => h arg (List.mem_cons_of_mem _ hm)),
          k1 (h a (List.mem_cons_self _ _))]
      · rw [i2 (fun arg hm => h arg (List.mem_cons_of_mem _ hm)),
          k2 (h a (List.mem_cons_self _ _))]
      · rw [i3 (fun arg hm => h arg (List.mem_cons_of_mem _ hm)),
          k3 (h a (List.mem_cons_self _ _))]
      · rw [i4 (fun arg hm => h arg (List.mem_cons_of_mem _ hm)),
          k4 (h a (List.mem_cons_self _ _))]

theorem parse_args_code_of_flags (argv : List c_string) (w h : Option Int) (pf : pixel_format)
    (filename : Option c_string)
    (hst : argv.length = 5 →
      (parse_args_loop argv.tail
          { w := w, h := h, pf := pf, filename := filename, width_set := false,
            height_set := false, pf_set := false, filename_set := false,
            parse_fail := false }).parse_fail = true ∨
      parse_flags_set (parse_args_loop argv.tail
          { w := w, h := h, pf := pf, filename := filename, width_set := false,
            height_set := false, pf_set := false, filename_set := false,
            parse_fail := false }) < 4) :
    (parse_args argv w h pf filename).code ≠ 0 := by
  unfold parse_args
  by_cases hlen : argv.length ≠ 5
  · rw [if_pos hlen]
    show (1 : Int) ≠ 0
    decide
  · rw [if_neg hlen]
    have hst' := hst (not_not.mp hlen)
    generalize parse_args_loop argv.tail _ = st at hst'
    have hc : (!st.width_set || !st.height_set || !st.pf_set || !st.filename_set ||
        st.parse_fail) = true := by
      rcases hst' with hf | hf
      · rw [hf]; simp
      · unfold parse_flags_set at hf
        rcases st with ⟨_, _, _, _, ws, hs, ps, fs, pfail⟩
        cases ws <;> cases hs <;> cases ps <;> cases fs <;> simp at hf ⊢
    simp only [hc, if_true]
    show (2 : Int) ≠ 0
    decide

/-- C14 (counterexample): `parse_args` returns 0 for a width of 0 and a height
of 70000, for values that are not numbers or are negative, and for arguments
whose third character is not `=`. -/
theorem parse_args_unvalidated_values :
    parse_args ["displayraw".toList, "-w=0".toList, "-h=70000".toList, "-p=BW1".toList,
        "-f=x".toList] (some 0) (some 0) PF_ERROR none =
      { code := 0, w := some 0, h := some 70000, pf := BW1, filename := some "x".toList } ∧
    parse_args ["displayraw".toList, "-w=abc".toList, "-h=-5".toList, "-p=BW1".toList,
        "-f=x".toList] (some 0) (some 0) PF_ERROR none =
      { code := 0, w := some 0, h := some (-5), pf := BW1, filename := some "x".toList } ∧
    parse_args ["displayraw".toList, "-wx5".toList, "-h:7".toList, "-pzBW1".toList,
        "-f+x".toList] (some 0) (some 0) PF_ERROR none =
      { code := 0, w := some 5, h := some 7, pf := BW1, filename := some "x".toList } := by
  decide

/-- C14 (amended): `parse_args` returns a nonzero code, and `main` prints the
usage text without opening a file or a window, whenever `argc` is not 5, or
some argument does not begin with `-` or has fewer than four characters, or
one of the letters w, h, p, f is the second character of no argument, or an
argument selects p and the text after its first three characters is none of
the sixteen format names. -/
theorem parse_args_rejects (argv : List c_string)
    (hbad : argv.length ≠ 5 ∨ (∃ arg ∈ argv.tail, spec_ill_shaped arg = true) ∨
      (∃ c ∈ ['w', 'h', 'p', 'f'], ∀ arg ∈ argv.tail, arg[1]? ≠ some c) ∨
      (∃ arg ∈ argv.tail, spec_bad_format_arg arg = true)) :
    (∀ (w h : Option Int) (pf : pixel_format) (filename : Option c_string),
      (parse_args argv w h pf filename).code ≠ 0) ∧
    ∀ (fopen : c_string → Option (List uint8_t)) (malloc : Nat → List uint8_t),
      main argv fopen malloc = main_outcome.usage := by
  have key : ∀ (w h : Option Int) (pf : pixel_format) (filename : Option c_string),
      (parse_args argv w h pf filename).code ≠ 0 := by
    intro w h pf filename
    apply parse_args_code_of_flags
    intro hlen
    have hb : ∀ b : Bool, b.toNat ≤ 1 := fun b => by cases b <;> decide
    rcases hbad with hd | hd | ⟨c, hc, hd⟩ | ⟨arg, hmem, hbadarg⟩
    · exact absurd hlen hd
    · exact Or.inl (parse_args_loop_fail _ _ (Or.inr hd))
    · right
      obtain ⟨k1, k2, k3, k4⟩ := parse_args_loop_keeps argv.tail
        { w := w, h := h, pf := pf, filename := filename, width_set := false,
          height_set := false, pf_set := false, filename_set := false, parse_fail := false }
      generalize parse_args_loop argv.tail _ = st at k1 k2 k3 k4 ⊢
      have h1 := hb st.width_set
      have h2 := hb st.height_set
      have h3 := hb st.pf_set
      have h4 := hb st.filename_set
      unfold parse_flags_set
      simp only [List.mem_cons, List.mem_singleton, List.not_mem_nil, or_false] at hc
      rcases hc with rfl | rfl | rfl | rfl
      · rw [k1 hd]; simp only [Bool.toNat_false]; omega
      · rw [k2 hd]; simp only [Bool.toNat_false]; omega
      · rw [k3 hd]; simp only [Bool.toNat_false]; omega
      · rw [k4 hd]; simp only [Bool.toNat_false]; omega
    · right
      have hfl := parse_args_loop_flags argv.tail
        { w := w, h := h, pf := pf, filename := filename, width_set := false,
          height_set := false, pf_set := false, filename_set := false, parse_fail := false }
      have hlen4 : argv.tail.length = 4 := by rw [List.length_tail, hlen]
      have hsum := List.length_eq_countP_add_countP (fun a => spec_bad_format_arg a) argv.tail
      have hpos : 0 < argv.tail.countP (fun a => spec_bad_format_arg a) :=
        List.countP_pos_iff.mpr ⟨arg, hmem, hbadarg⟩
      have h0 : parse_flags_set
          { w := w, h := h, pf := pf, filename := filename, width_set := false,
            height_set := false, pf_set := false, filename_set := false,
            parse_fail := false } = 0 := rfl
      have hnot : argv.tail.countP (fun a => !spec_bad_format_arg a) =
          argv.tail.countP (fun a => ¬ (spec_bad_format_arg a = true)) := by
        congr 1
        funext a
        cases spec_bad_format_arg a <;> simp
      rw [h0, hnot] at hfl
      omega
  refine ⟨key, fun fopen malloc => ?_⟩
  unfold main
  simp only [key (some 0) (some 0) PF_ERROR none, ne_eq, not_false_eq_true, if_true]

/-- Witness of the amended C14: an unknown format name. -/
theorem parse_args_rejects_witness :
    (∃ arg ∈ (["displayraw".toList, "-w=5".toList, "-h=5".toList, "-p=BW3".toList,
        "-f=x".toList] : List c_string).tail, spec_bad_format_arg arg = true) ∧
    (∀ (w h : Option Int) (pf : pixel_format) (filename : Option c_string),
      (parse_args ["displayraw".toList, "-w=5".toList, "-h=5".toList, "-p=BW3".toList,
        "-f=x".toList] w h pf filename).code ≠ 0) ∧
    ∀ (fopen : c_string → Option (List uint8_t)) (malloc : Nat → List uint8_t),
      main ["displayraw".toList, "-w=5".toList, "-h=5".toList, "-p=BW3".toList,
        "-f=x".toList] fopen malloc = main_outcome.usage :=
  ⟨⟨"-p=BW3".toList, by decide, by decide⟩,
    parse_args_rejects _ (Or.inr (Or.inr (Or.inr ⟨"-p=BW3".toList, by decide, by decide⟩)))⟩

theorem digitChar_digit : ∀ m, m < 10 →
    isdigit (Nat.digitChar m) = true ∧ (Nat.digitChar m).toNat - 48 = m := by
  decide

theorem atoi_digits_toDigitsCore (fuel : Nat) :
    ∀ (n : Nat) (ds : c_string), n < fuel →
      atoi_digits 0 (Nat.toDigitsCore 10 fuel n ds) = atoi_digits n ds := by
  induction fuel with
  | zero => intro n ds h; exact absurd h (Nat.not_lt_zero n)
  | succ fuel ih =>
    intro n ds hn
    obtain ⟨hd, hv⟩ := digitChar_digit (n % 10) (Nat.mod_lt n (by decide))
    unfold Nat.toDigitsCore
    simp only
    by_cases h0 : n / 10 = 0
    · rw [if_pos h0]
      simp only [atoi_digits, hd, if_true, hv]
      congr 1
      omega
    · rw [if_neg h0, ih (n / 10) _ (by omega)]
      simp only [atoi_digits, hd, if_true, hv]
      congr 1
      omega

theorem toDigitsCore_head (fuel : Nat) :
    ∀ (n : Nat) (ds : c_string),
      (0 < fuel ∨ ∃ c t, ds = c :: t ∧ isdigit c = true) →
      ∃ c t, Nat.toDigitsCore 10 fuel n ds = c :: t ∧ isdigit c = true := by
  induction fuel with
  | zero =>
    intro n ds h
    rcases h with h | h
    · exact absurd h (Nat.lt_irrefl 0)
    · exact h
  | succ fuel ih =>
    intro n ds _
    obtain ⟨hd, _⟩ := digitChar_digit (n % 10) (Nat.mod_lt n (by decide))
    unfold Nat.toDigitsCore
    simp only
    by_cases h0 : n / 10 = 0
    · rw [if_pos h0]
      exact ⟨_, _, rfl, hd⟩
    · rw [if_neg h0]
      exact ih _ _ (Or.inr ⟨_, _, rfl, hd⟩)

theorem spec_decimal_head (n : Nat) :
    ∃ c t, spec_decimal n = c :: t ∧ isdigit c = true :=
  toDigitsCore_head (n + 1) n [] (Or.inl (Nat.succ_pos n))

theorem atoi_digit_head (c : Char) (t : c_string) (hc : isdigit c = true)
    (hr : (atoi_digits 0 (c :: t) : Int) ≤ INT_MAX) :
    atoi (c :: t) = some (atoi_digits 0 (c :: t) : Int) := by
  have hc' := hc
  simp only [isdigit, Bool.and_eq_true, decide_eq_true_eq] at hc'
  have hsp : isspace c = false := by
    unfold isspace
    have h32 : c ≠ ' ' := fun e => by rw [e] at hc'; revert hc'; decide
    simp [h32]
    omega
  have hminus : c ≠ '-' := fun e => by rw [e] at hc'; revert hc'; decide
  have hplus : c ≠ '+' := fun e => by rw [e] at hc'; revert hc'; decide
  have hdrop : List.dropWhile isspace (c :: t) = c :: t := by
    rw [List.dropWhile_cons, hsp]
    simp
  have hmatch : atoi_value (c :: t) = (atoi_digits 0 (c :: t) : Int) := by
    unfold atoi_value
    split
    · next t' h' => exact absurd (List.cons.inj h').1 hminus
    · next t' h' => exact absurd (List.cons.inj h').1 hplus
    · rfl
  unfold atoi
  simp only [hdrop, hmatch]
  rw [if_pos ⟨by unfold INT_MIN; omega, hr⟩]

theorem atoi_spec_decimal (n : Nat) (hn : (n : Int) ≤ INT_MAX) :
    atoi (spec_decimal n) = some (n : Int) := by
  obtain ⟨c, t, hct, hc⟩ := spec_decimal_head n
  have hval : atoi_digits 0 (spec_decimal n) = n := by
    unfold spec_decimal Nat.toDigits
    rw [atoi_digits_toDigitsCore (n + 1) n [] (Nat.lt_succ_self n)]
    rfl
  rw [hct] at hval ⊢
  rw [atoi_digit_head c t hc (by rw [hval]; exact hn), hval]

theorem parse_args_loop_cons_arg (letter : Char) (value : c_string) (hv : value ≠ [])
    (l : List c_string) (st : parse_vars) :
    parse_args_loop (spec_arg letter value :: l) st =
      parse_args_loop l (parse_arg st (spec_arg letter value)) := by
  have hlen : 0 < value.length := List.length_pos.mpr hv
  have hc : ¬ ((spec_arg letter value).head? ≠ some '-' ∨ (spec_arg letter value).length < 4) := by
    intro hc
    rcases hc with hc | hc
    · exact hc rfl
    · simp only [spec_arg, List.length_cons] at hc
      omega
  conv_lhs => rw [parse_args_loop]
  rw [if_neg hc]

theorem parse_arg_w (st : parse_vars) (value : c_string) :
    parse_arg st (spec_arg 'w' value) = { st with w := atoi value, width_set := true } := rfl

theorem parse_arg_h (st : parse_vars) (value : c_string) :
    parse_arg st (spec_arg 'h' value) = { st with h := atoi value, height_set := true } := rfl

theorem parse_arg_f (st : parse_vars) (value : c_string) :
    parse_arg st (spec_arg 'f' value) =
      { st with filename := some value, filename_set := true } := rfl

theorem parse_arg_p (st : parse_vars) (value : c_string) :
    parse_arg st (spec_arg 'p' value) = parse_pixel_format st value := rfl

theorem spec_format_name_ne_nil (P : c_string) (p : pixel_format)
    (hP : (P, p) ∈ spec_format_names) : P ≠ [] := by
  unfold spec_format_names at hP
  fin_cases hP <;> decide

theorem spec_decimal_ne_nil (n : Nat) : spec_decimal n ≠ [] := by
  obtain ⟨c, t, h, _⟩ := spec_decimal_head n
  rw [h]
  exact List.cons_ne_nil c t

theorem spec_arg_letter_ne (c1 c2 : Char) (v1 v2 : c_string) (h : c1 ≠ c2) :
    spec_arg c1 v1 ≠ spec_arg c2 v2 := by
  intro e
  unfold spec_arg at e
  exact h (List.cons.inj (List.cons.inj e).2).1

theorem parse_args_loop_four (W H : Nat) (hW : (W : Int) ≤ INT_MAX) (hH : (H : Int) ≤ INT_MAX)
    (P : c_string) (p : pixel_format) (hP : (P, p) ∈ spec_format_names)
    (F : c_string) (hF : F ≠ []) (l : List c_string) :
    ∀ st : parse_vars,
      (∀ x ∈ l, x = spec_arg 'w' (spec_decimal W) ∨ x = spec_arg 'h' (spec_decimal H) ∨
        x = spec_arg 'p' P ∨ x = spec_arg 'f' F) →
      st.parse_fail = false →
      (parse_args_loop l st).parse_fail = false ∧
      ((st.w = some (W : Int) ∧ st.width_set = true) ∨ spec_arg 'w' (spec_decimal W) ∈ l →
        (parse_args_loop l st).w = some (W : Int) ∧ (parse_args_loop l st).width_set = true) ∧
      ((st.h = some (H : Int) ∧ st.height_set = true) ∨ spec_arg 'h' (spec_decimal H) ∈ l →
        (parse_args_loop l st).h = some (H : Int) ∧ (parse_args_loop l st).height_set = true) ∧
      ((st.pf = p ∧ st.pf_set = true) ∨ spec_arg 'p' P ∈ l →
        (parse_args_loop l st).pf = p ∧ (parse_args_loop l st).pf_set = true) ∧
      ((st.filename = some F ∧ st.filename_set = true) ∨ spec_arg 'f' F ∈ l →
        (parse_args_loop l st).filename = some F ∧
          (parse_args_loop l st).filename_set = true) := by
  have nwh := spec_arg_letter_ne 'w' 'h' (spec_decimal W) (spec_decimal H) (by decide)
  have nwp := spec_arg_letter_ne 'w' 'p' (spec_decimal W) P (by decide)
  have nwf := spec_arg_letter_ne 'w' 'f' (spec_decimal W) F (by decide)
  have nhp := spec_arg_letter_ne 'h' 'p' (spec_decimal H) P (by decide)
  have nhf := spec_arg_letter_ne 'h' 'f' (spec_decimal H) F (by decide)
  have npf := spec_arg_letter_ne 'p' 'f' P F (by decide)
  have hPn := spec_format_name_ne_nil P p hP
  induction l with
  | nil =>
    intro st _ hf
    refine ⟨hf, ?_, ?_, ?_, ?_⟩ <;>
    · intro h
      rcases h with h | h
      · exact h
      · cases h
  | cons a l ih =>
    intro st hall hf
    have hall' : ∀ x ∈ l, x = spec_arg 'w' (spec_decimal W) ∨
        x = spec_arg 'h' (spec_decimal H) ∨ x = spec_arg 'p' P ∨ x = spec_arg 'f' F :=
      fun x hx => hall x (List.mem_cons_of_mem _ hx)
    rcases hall a (List.mem_cons_self _ _) with rfl | rfl | rfl | rfl
    · rw [parse_args_loop_cons_arg _ _ (spec_decimal_ne_nil W), parse_arg_w,
        atoi_spec_decimal W hW]
      obtain ⟨i0, i1, i2, i3, i4⟩ :=
        ih { st with w := some (W : Int), width_set := true } hall' hf
      refine ⟨i0, fun _ => i1 (Or.inl ⟨rfl, rfl⟩), fun h => i2 ?_, fun h => i3 ?_,
        fun h => i4 ?_⟩
      · rcases h with h | h
        · exact Or.inl h
        · exact Or.inr ((List.mem_cons.mp h).resolve_left (Ne.symm nwh))
      · rcases h with h | h
        · exact Or.inl h
        · exact Or.inr ((List.mem_cons.mp h).resolve_left (Ne.symm nwp))
      · rcases h with h | h
        · exact Or.inl h
        · exact Or.inr ((List.mem_cons.mp h).resolve_left (Ne.symm nwf))
    · rw [parse_args_loop_cons_arg _ _ (spec_decimal_ne_nil H), parse_arg_h,
        atoi_spec_decimal H hH]
      obtain ⟨i0, i1, i2, i3, i4⟩ :=
        ih { st with h := some (H : Int), height_set := true } hall' hf
      refine ⟨i0, fun h => i1 ?_, fun _ => i2 (Or.inl ⟨rfl, rfl⟩), fun h => i3 ?_,
        fun h => i4 ?_⟩
      · rcases h with h | h
        · exact Or.inl h
        · exact Or.inr ((List.mem_cons.mp h).resolve_left nwh)
      · rcases h with h | h
        · exact Or.inl h
        · exact Or.inr ((List.mem_cons.mp h).resolve_left (Ne.symm nhp))
      · rcases h with h | h
        · exact Or.inl h
        · exact Or.inr ((List.mem_cons.mp h).resolve_left (Ne.symm nhf))
    · rw [parse_args_loop_cons_arg _ _ hPn, parse_arg_p, parse_pixel_format_good st P p hP]
      obtain ⟨i0, i1, i2, i3, i4⟩ := ih { st with pf_set := true, pf := p } hall' hf
      refine ⟨i0, fun h => i1 ?_, fun h => i2 ?_, fun _ => i3 (Or.inl ⟨rfl, rfl⟩),
        fun h => i4 ?_⟩
      · rcases h with h | h
        · exact Or.inl h
        · exact Or.inr ((List.mem_cons.mp h).resolve_left nwp)
      · rcases h with h | h
        · exact Or.inl h
        · exact Or.inr ((List.mem_cons.mp h).resolve_left nhp)
      · rcases h with h | h
        · exact Or.inl h
        · exact Or.inr ((List.mem_cons.mp h).resolve_left (Ne.symm npf))
    · rw [parse_args_loop_cons_arg _ _ hF, parse_arg_f]
      obtain ⟨i0, i1, i2, i3, i4⟩ :=
        ih { st with filename := some F, filename_set := true } hall' hf
      refine ⟨i0, fun h => i1 ?_, fun h => i2 ?_, fun h => i3 ?_,
        fun _ => i4 (Or.inl ⟨rfl, rfl⟩)⟩
      · rcases h with h | h
        · exact Or.inl h
        · exact Or.inr ((List.mem_cons.mp h).resolve_left nwf)
      · rcases h with h | h
        · exact Or.inl h
        · exact Or.inr ((List.mem_cons.mp h).resolve_left nhf)
      · rcases h with h | h
        · exact Or.inl h
        · exact Or.inr ((List.mem_cons.mp h).resolve_left npf)

/-- C15 (counterexample): for the decimal width 2147483648, which is not an
`int` value, `atoi` has no defined result and `parse_args` does not set the
width to W. -/
theorem parse_args_width_beyond_int :
    parse_args ["displayraw".toList, spec_arg 'w' (spec_decimal 2147483648),
        spec_arg 'h' (spec_decimal 1), spec_arg 'p' "BW1".toList, spec_arg 'f' "x".toList]
        (some 0) (some 0) PF_ERROR none =
      { code := 0, w := none, h := some 1, pf := BW1, filename := some "x".toList } ∧
    parse_args ["displayraw".toList, spec_arg 'w' (spec_decimal 2147483648),
        spec_arg 'h' (spec_decimal 1), spec_arg 'p' "BW1".toList, spec_arg 'f' "x".toList]
        (some 0) (some 0) PF_ERROR none ≠
      { code := 0, w := some 2147483648, h := some 1, pf := BW1,
        filename := some "x".toList } := by
  decide

/-- C15 (amended): for all widths W and heights H that are `int` values
(at most 2147483647) written in decimal, each of the sixteen format names P
and every non-empty filename F, `parse_args` on the arguments -w=W, -h=H,
-p=P, -f=F in any order returns 0 and leaves width W, height H, filename F and
the format whose enumerator is named P. -/
theorem parse_args_accepts (W H : Nat) (hW : (W : Int) ≤ INT_MAX) (hH : (H : Int) ≤ INT_MAX)
    (P : c_string) (p : pixel_format) (hP : (P, p) ∈ spec_format_names)
    (F : c_string) (hF : F ≠ []) (prog : c_string) (args : List c_string)
    (hperm : args.Perm [spec_arg 'w' (spec_decimal W), spec_arg 'h' (spec_decimal H),
      spec_arg 'p' P, spec_arg 'f' F])
    (w0 h0 : Option Int) (pf0 : pixel_format) (filename0 : Option c_string) :
    parse_args (prog :: args) w0 h0 pf0 filename0 =
      { code := 0, w := some (W : Int), h := some (H : Int), pf := p, filename := some F } := by
  have hlen : (prog :: args).length = 5 := by
    rw [List.length_cons, hperm.length_eq]
    rfl
  have hall : ∀ x ∈ args, x = spec_arg 'w' (spec_decimal W) ∨
      x = spec_arg 'h' (spec_decimal H) ∨ x = spec_arg 'p' P ∨ x = spec_arg 'f' F := by
    intro x hx
    have := hperm.mem_iff.mp hx
    simpa using this
  obtain ⟨f0, f1, f2, f3, f4⟩ := parse_args_loop_four W H hW hH P p hP F hF args
    { w := w0, h := h0, pf := pf0, filename := filename0, width_set := false,
      height_set := false, pf_set := false, filename_set := false, parse_fail := false }
    hall rfl
  obtain ⟨a1, b1⟩ := f1 (Or.inr (hperm.mem_iff.mpr (by simp)))
  obtain ⟨a2, b2⟩ := f2 (Or.inr (hperm.mem_iff.mpr (by simp)))
  obtain ⟨a3, b3⟩ := f3 (Or.inr (hperm.mem_iff.mpr (by simp)))
  obtain ⟨a4, b4⟩ := f4 (Or.inr (hperm.mem_iff.mpr (by simp)))
  unfold parse_args
  rw [if_neg (not_not.mpr hlen)]
  simp only [List.tail_cons, f0, a1, b1, a2, b2, a3, b3, a4, b4]
  rfl

/-- Witness of the amended C15: 640x480 RGB8 with the arguments in the order
f, p, h, w. -/
theorem parse_args_accepts_witness :
    ((640 : Nat) : Int) ≤ INT_MAX ∧ ((480 : Nat) : Int) ≤ INT_MAX ∧
    ("RGB8".toList, RGB8) ∈ spec_format_names ∧ "img.raw".toList ≠ [] ∧
    parse_args ["displayraw".toList, "-f=img.raw".toList, "-p=RGB8".toList, "-h=480".toList,
        "-w=640".toList] (some 0) (some 0) PF_ERROR none =
      { code := 0, w := some 640, h := some 480, pf := RGB8,
        filename := some "img.raw".toList } :=
  ⟨by decide, by decide, by decide, by decide,
    parse_args_accepts 640 480 (by decide) (by decide) "RGB8".toList RGB8 (by decide)
      "img.raw".toList (by decide) "displayraw".toList
      ["-f=img.raw".toList, "-p=RGB8".toList, "-h=480".toList, "-w=640".toList]
      (by decide) (some 0) (some 0) PF_ERROR none⟩

end DisplayRaw
